import Mathlib

/-!
Verification development for the pixel-grid refinement core
(`sm_cubit/visuals/improver.py`).

The grid is embedded as a list of rows of integer pixel ids.  The helper
module `pixel_maths` is not part of the given sources; its constants and
neighbourhood functions are modelled from the specification (§4.1 of the
design document): bounded 8-connected neighbourhoods with no wraparound,
and the deduplicated neighbour halo of a coordinate set.

Python-specific behaviour is modelled as follows.

* `random.randint(0, n-1)` is modelled by an explicit stream of natural
  numbers together with a draw counter; the k-th draw over `n` choices
  returns `stream k % n`.  (Python raises on an empty range, which can
  only happen for `clean_pixel_grid` on a 1×1 grid; theorems about draws
  therefore carry a non-empty-neighbourhood hypothesis.)
* `list(set(xs))` and set iteration order are modelled as first-occurrence
  deduplication (`pyDedup`); CPython's actual set order is unspecified.
* `max(xs, key=f)` keeps the first element among ties, which the fold in
  `mostFrequent` reproduces.
* Python `dict` (used for `merge_map`) is modelled as an association list
  in insertion order, which is exactly CPython's documented dict order.
* `max` of an empty sequence raises `ValueError`; `remove_small_grains`
  can hit this (a grain covering the whole grid and still below the
  threshold), so it returns an `Option`.
-/

/-- A pixel grid: a list of rows of integer pixel ids. -/
abbrev Grid := List (List Int)

/-- Modelled from the spec: the reserved sentinel for unassigned (void)
pixels.  The concrete numeral is arbitrary; only distinctness from grain
ids and from the other sentinel matters. -/
def VOID_PIXEL_ID : Int := 100000

/-- Modelled from the spec: the reserved sentinel for fixed, non-orientable
material.  The concrete numeral is arbitrary. -/
def UNORIENTED_PIXEL_ID : Int := 100001

/-- Reads `pixel_grid[row][col]`, total with an out-of-range default. -/
def getCell (g : Grid) (row col : Nat) : Int :=
  (g.getD row []).getD col VOID_PIXEL_ID

/-- Writes `pixel_grid[row][col] = v`, a no-op out of range. -/
def setCell (g : Grid) (row col : Nat) (v : Int) : Grid :=
  g.set row ((g.getD row []).set col v)

/-- Every row has the length of the first row (the rectangularity contract
of the data model). -/
def isRect (g : Grid) : Prop :=
  ∀ row ∈ g, row.length = (g.getD 0 []).length

instance (g : Grid) : Decidable (isRect g) := by
  unfold isRect; infer_instance

/-- Modelled from the spec (§4.1): the bounded 8-connected neighbours of
`(col, row)`, as `(x, y)` pairs, clipped at the grid edges. -/
def get_neighbours (col row x_size y_size : Nat) : List (Nat × Nat) :=
  let offsets : List (Int × Int) :=
    [(-1, -1), (0, -1), (1, -1), (-1, 0), (1, 0), (-1, 1), (0, 1), (1, 1)]
  ((offsets.map (fun d => ((col : Int) + d.1, (row : Int) + d.2))).filter
    (fun p => decide (0 ≤ p.1 ∧ p.1 < (x_size : Int) ∧ 0 ≤ p.2 ∧ p.2 < (y_size : Int)))).map
    (fun p => (p.1.toNat, p.2.toNat))

/-- First-occurrence deduplication with an accumulator of already seen
elements; models the iteration order of a Python `set` as insertion order
(the real order is unspecified). -/
def pyDedupAux {α : Type} [DecidableEq α] : List α → List α → List α
  | [], _ => []
  | x :: xs, seen =>
    if x ∈ seen then pyDedupAux xs seen else x :: pyDedupAux xs (x :: seen)

/-- Models `list(set(l))` as first-occurrence deduplication. -/
def pyDedup {α : Type} [DecidableEq α] (l : List α) : List α := pyDedupAux l []

/-- Modelled from the spec (§4.1): the deduplicated neighbour halo of a
coordinate set — all bounded neighbours of any member that are not
themselves members.  Coordinates are `(x, y)` pairs. -/
def get_all_neighbours (x_list y_list : List Nat) (x_size y_size : Nat) :
    List (Nat × Nat) :=
  let coords := x_list.zip y_list
  let all := (coords.map (fun p => get_neighbours p.1 p.2 x_size y_size)).flatten
  pyDedup (all.filter (fun q => decide (q ∉ coords)))

/-- Modelled from the spec: a `y_size × x_size` grid of void pixels. -/
def get_void_pixel_grid (x_size y_size : Nat) : Grid :=
  List.replicate y_size (List.replicate x_size VOID_PIXEL_ID)

/-- The random source: a stream of naturals and a draw counter. -/
structure Rng where
  stream : Nat → Nat
  idx : Nat

/-- One draw of `randint(0, n-1)`: the stream value modulo `n`, and the
advanced generator. -/
def Rng.draw (r : Rng) (n : Nat) : Nat × Rng :=
  (r.stream r.idx % n, ⟨r.stream, r.idx + 1⟩)

/-- Row-major scan order: all `(row, col)` with `row < y_size`,
`col < x_size`. -/
def posList (x_size y_size : Nat) : List (Nat × Nat) :=
  ((List.range y_size).map (fun r => (List.range x_size).map (fun c => (r, c)))).flatten

/-! ### `clean_pixel_grid` -/

/-- The second rule of the denoiser: if more than half of the neighbours
are void, remove a live pixel. -/
def cleanRule2 (g : Grid) (rng : Rng) (row col num_void n_len : Nat) :
    Grid × Rng :=
  if getCell g row col ≠ VOID_PIXEL_ID ∧ 2 * num_void > n_len then
    (setCell g row col VOID_PIXEL_ID, rng)
  else (g, rng)

/-- One cell of the denoiser scan (`clean_pixel_grid` loop body). -/
def cleanStep (x_size y_size : Nat) (s : Grid × Rng) (p : Nat × Nat) :
    Grid × Rng :=
  let g := s.1
  let rng := s.2
  let row := p.1
  let col := p.2
  if getCell g row col = UNORIENTED_PIXEL_ID then s
  else
    let neighbours := get_neighbours col row x_size y_size
    let num_void :=
      (neighbours.filter (fun n => decide (getCell g n.2 n.1 = VOID_PIXEL_ID))).length
    if getCell g row col = VOID_PIXEL_ID ∧ 2 * num_void ≤ neighbours.length then
      let d := rng.draw neighbours.length
      let copy := neighbours.getD d.1 (0, 0)
      if getCell g copy.2 copy.1 = UNORIENTED_PIXEL_ID then (g, d.2)
      else
        cleanRule2 (setCell g row col (getCell g copy.2 copy.1)) d.2 row col
          num_void neighbours.length
    else cleanRule2 g rng row col num_void neighbours.length

/-- The denoiser `clean_pixel_grid`: one in-place row-major denoising pass. -/
def clean_pixel_grid (pixel_grid : Grid) (rng : Rng) : Grid :=
  let x_size := (pixel_grid.getD 0 []).length
  let y_size := pixel_grid.length
  ((posList x_size y_size).foldl (cleanStep x_size y_size) (pixel_grid, rng)).1

/-! ### `smoothen_edges` -/

/-- One cell of the edge-smoothing scan (`smoothen_edges` loop body). -/
def smoothStep (x_size y_size : Nat) (s : Grid × Rng) (p : Nat × Nat) :
    Grid × Rng :=
  let g := s.1
  let rng := s.2
  let row := p.1
  let col := p.2
  if getCell g row col = UNORIENTED_PIXEL_ID then s
  else
    let neighbours := get_neighbours col row x_size y_size
    let foreign_neighbours :=
      neighbours.filter (fun n => decide (getCell g n.2 n.1 ≠ getCell g row col))
    if 2 < foreign_neighbours.length then
      let d := rng.draw foreign_neighbours.length
      let foreign := foreign_neighbours.getD d.1 (0, 0)
      if getCell g foreign.2 foreign.1 = UNORIENTED_PIXEL_ID then (g, d.2)
      else (setCell g row col (getCell g foreign.2 foreign.1), d.2)
    else (g, rng)

/-- The edge smoother `smoothen_edges`: one in-place row-major smoothing pass. -/
def smoothen_edges (pixel_grid : Grid) (rng : Rng) : Grid :=
  let x_size := (pixel_grid.getD 0 []).length
  let y_size := pixel_grid.length
  ((posList x_size y_size).foldl (smoothStep x_size y_size) (pixel_grid, rng)).1

/-! ### `pad_edges` -/

/-- One cell of the padding scan (`pad_edges` loop body); reads only the
original grid `src` and writes the output grid. -/
def padStep (src : Grid) (x_size y_size : Nat) (s : Grid × Rng)
    (p : Nat × Nat) : Grid × Rng :=
  let out := s.1
  let rng := s.2
  let row := p.1
  let col := p.2
  if getCell src row col ≠ VOID_PIXEL_ID then
    (setCell out row col (getCell src row col), rng)
  else
    let neighbours := get_neighbours col row x_size y_size
    let live_neighbours :=
      neighbours.filter (fun n => decide (getCell src n.2 n.1 ≠ VOID_PIXEL_ID))
    if 0 < live_neighbours.length then
      let d := rng.draw live_neighbours.length
      let copy := live_neighbours.getD d.1 (0, 0)
      (setCell out row col (getCell src copy.2 copy.1), d.2)
    else (out, rng)

/-- The padder `pad_edges`: fills void cells from a random live neighbour of the
original grid, into a fresh void-initialised grid. -/
def pad_edges (pixel_grid : Grid) (rng : Rng) : Grid :=
  let x_size := (pixel_grid.getD 0 []).length
  let y_size := pixel_grid.length
  ((posList x_size y_size).foldl (padStep pixel_grid x_size y_size)
    (get_void_pixel_grid x_size y_size, rng)).1

/-! ### `get_sorted_grain_id_list` -/

/-- The grain indexer `get_sorted_grain_id_list`: the ascending list of distinct non-void
ids, and the flattened pixel sequence. -/
def get_sorted_grain_id_list (pixel_grid : Grid) : List Int × List Int :=
  let flattened := pixel_grid.flatten
  let id_list0 := pyDedup flattened
  let id_list1 :=
    if VOID_PIXEL_ID ∈ id_list0 then id_list0.erase VOID_PIXEL_ID else id_list0
  (id_list1.insertionSort (· ≤ ·), flattened)

/-! ### `remove_small_grains` -/

/-- Models `max(set(l), key=l.count)`: the most frequent element, first among ties
in the modelled set iteration order; `none` on the empty sequence (where
Python `max` raises `ValueError`). -/
def mostFrequent (l : List Int) : Option Int :=
  (pyDedup l).foldl
    (fun acc x =>
      match acc with
      | none => some x
      | some b => if l.count b < l.count x then some x else some b)
    none

/-- The body of one `remove_small_grains` iteration for a grain already
known to be under the threshold: gather the grain's current coordinates,
find the most neighbouring grain, and replace.  Returns the new grid and
the absorbing id; `none` where Python would raise (empty halo). -/
def removeGrainStep (x_size y_size : Nat) (g : Grid) (id : Int) :
    Option (Grid × Int) :=
  let coords := (posList x_size y_size).filter (fun p => decide (getCell g p.1 p.2 = id))
  let x_list := coords.map (fun p => p.2)
  let y_list := coords.map (fun p => p.1)
  let neighbours := get_all_neighbours x_list y_list x_size y_size
  let neighbour_ids := neighbours.map (fun n => getCell g n.2 n.1)
  match mostFrequent neighbour_ids with
  | none => none
  | some most_neighbouring =>
    some (coords.foldl (fun gr p => setCell gr p.1 p.2 most_neighbouring) g,
      most_neighbouring)

/-- The small-grain remover `remove_small_grains`: reassigns each grain whose precomputed pixel
count is under the threshold to its most neighbouring grain, in ascending
id order. -/
def remove_small_grains (pixel_grid : Grid) (threshold : Int) : Option Grid :=
  let pr := get_sorted_grain_id_list pixel_grid
  let id_list := pr.1
  let flattened := pr.2
  let x_size := (pixel_grid.getD 0 []).length
  let y_size := pixel_grid.length
  id_list.foldl
    (fun acc id =>
      match acc with
      | none => none
      | some g =>
        if (flattened.count id : Int) ≥ threshold then some g
        else (removeGrainStep x_size y_size g id).map (fun r => r.1))
    (some pixel_grid)

/-- Variant of `remove_small_grains` instrumented with the list of
`(removed id, absorbing id)` pairs, used to state the absorption-target
clause of the small-grain property. -/
def remove_small_grains_aux (pixel_grid : Grid) (threshold : Int) :
    Option (Grid × List (Int × Int)) :=
  let pr := get_sorted_grain_id_list pixel_grid
  let id_list := pr.1
  let flattened := pr.2
  let x_size := (pixel_grid.getD 0 []).length
  let y_size := pixel_grid.length
  id_list.foldl
    (fun acc id =>
      match acc with
      | none => none
      | some (g, tr) =>
        if (flattened.count id : Int) ≥ threshold then some (g, tr)
        else (removeGrainStep x_size y_size g id).map
          (fun r => (r.1, tr ++ [(id, r.2)])))
    (some (pixel_grid, []))

/-- The `(removed id, absorbing id)` pairs of one `remove_small_grains`
call (empty where the call fails). -/
def absorptionPairs (pixel_grid : Grid) (threshold : Int) : List (Int × Int) :=
  match remove_small_grains_aux pixel_grid threshold with
  | none => []
  | some r => r.2

/-- Written from the spec's words for the mode tie-break: the most
frequent id among the halo values, ties broken by first-encountered order
in the halo enumeration. -/
def specMode (l : List Int) : Option Int :=
  l.find? (fun x => decide (∀ y ∈ l, l.count y ≤ l.count x))

/-- Written from the spec's words (§4.6): precomputed counts, current
coordinates, halo mode with first-encounter tie-break, reassignment. -/
def specRemoveSmallGrains (pixel_grid : Grid) (threshold : Int) : Option Grid :=
  let pr := get_sorted_grain_id_list pixel_grid
  let id_list := pr.1
  let flattened := pr.2
  let x_size := (pixel_grid.getD 0 []).length
  let y_size := pixel_grid.length
  id_list.foldl
    (fun acc id =>
      match acc with
      | none => none
      | some g =>
        if (flattened.count id : Int) ≥ threshold then some g
        else
          let coords :=
            (posList x_size y_size).filter (fun p => decide (getCell g p.1 p.2 = id))
          let halo := get_all_neighbours (coords.map (fun p => p.2))
            (coords.map (fun p => p.1)) x_size y_size
          match specMode (halo.map (fun n => getCell g n.2 n.1)) with
          | none => none
          | some m =>
            some (coords.foldl (fun gr p => setCell gr p.1 p.2 m) g))
    (some pixel_grid)

/-! ### `merge_grains` -/

/-- A grain of the external grain map; only its 3-component orientation is
consumed by this core.  The orientation components (Python floats) are
modelled as exact integers; the merge logic only subtracts, takes absolute
values, sums and compares them. -/
structure Grain where
  get_orientation : Int × Int × Int

/-- Python `abs`. -/
def pyAbs (i : Int) : Int := if i < 0 then -i else i

/-- Computes `sum([abs(o1[k] - o2[k]) for k in range(3)])`. -/
def orientationError (o1 o2 : Int × Int × Int) : Int :=
  pyAbs (o1.1 - o2.1) + pyAbs (o1.2.1 - o2.2.1) + pyAbs (o1.2.2 - o2.2.2)

/-- Models `merge_map[key] += [v]` / `merge_map[key] = [v]` on a Python dict in
insertion order, modelled as an association list. -/
def alistAppend (mm : List (Int × List Int)) (key v : Int) :
    List (Int × List Int) :=
  if mm.any (fun e => e.1 == key) then
    mm.map (fun e => if e.1 == key then (e.1, e.2 ++ [v]) else e)
  else mm ++ [(key, [v])]

/-- The merge-map construction of `merge_grains`: for every index pair
`i < j` of the ascending id list whose orientation distance is under the
threshold, append `id_list[j]` under `id_list[i]`. -/
def buildMergeMap (id_list : List Int) (grain_map : Int → Grain) (t : Int) :
    List (Int × List Int) :=
  (List.range id_list.length).foldl
    (fun mm i =>
      let orientation_1 := (grain_map (id_list.getD i 0)).get_orientation
      (List.range' (i + 1) (id_list.length - (i + 1))).foldl
        (fun mm2 j =>
          let orientation_2 := (grain_map (id_list.getD j 0)).get_orientation
          if orientationError orientation_1 orientation_2 < t then
            alistAppend mm2 (id_list.getD i 0) (id_list.getD j 0)
          else mm2)
        mm)
    []

/-- Applying one merge-map entry: scan the grid and set every cell whose
current value is in the entry's list to the entry's key. -/
def mergeApplyKey (x_size y_size : Nat) (g : Grid) (e : Int × List Int) :
    Grid :=
  (posList x_size y_size).foldl
    (fun gr p =>
      if getCell gr p.1 p.2 ∈ e.2 then setCell gr p.1 p.2 e.1 else gr)
    g

/-- The grain merger `merge_grains`: merges commonly oriented grains.  The first component
is the returned grid; the second is the printed summary (stdout lines). -/
def merge_grains (pixel_grid : Grid) (grain_map : Int → Grain)
    (threshold : Int) : Grid × List String :=
  let id_list := (get_sorted_grain_id_list pixel_grid).1
  let x_size := (pixel_grid.getD 0 []).length
  let y_size := pixel_grid.length
  let merge_map := buildMergeMap id_list grain_map threshold
  let new_pixel_grid := merge_map.foldl (mergeApplyKey x_size y_size) pixel_grid
  let new_id_list := (get_sorted_grain_id_list new_pixel_grid).1
  (new_pixel_grid,
    ["=========================",
      "Merged from " ++ toString id_list.length ++ " grains to " ++
        toString new_id_list.length ++ " grains",
      "========================="])

/-- Written from the spec's words (§4.7): the merge map as a declarative
bucket list — for each index `i` with at least one matching `j > i`, the
entry `(id_list[i], [id_list[j] | j > i, distance < t])`, in ascending
`i` order. -/
def specMergeMap (id_list : List Int) (grain_map : Int → Grain) (t : Int) :
    List (Int × List Int) :=
  (List.range id_list.length).filterMap
    (fun i =>
      let js := (List.range id_list.length).filter
        (fun j => decide (i < j) && decide
          (orientationError (grain_map (id_list.getD i 0)).get_orientation
            (grain_map (id_list.getD j 0)).get_orientation < t))
      if js.isEmpty then none
      else some (id_list.getD i 0, js.map (fun j => id_list.getD j 0)))

/-! ### Counting helpers and the spec's input-validity predicate -/

/-- The number of non-void cells of a grid. -/
def countNonVoid (g : Grid) : Nat :=
  g.flatten.countP (fun v => decide (v ≠ VOID_PIXEL_ID))

/-- The number of cells holding the unoriented sentinel. -/
def countUnoriented (g : Grid) : Nat :=
  g.flatten.count UNORIENTED_PIXEL_ID

/-- Modelled from the spec (§7): the input-validity condition under which
the spec requires the passes to proceed — a non-empty rectangular grid and
a positive threshold; anything else is to fail with `InvalidInput`. -/
def specValidInput (g : Grid) (threshold : Int) : Prop :=
  g ≠ [] ∧ (g.getD 0 []).length ≠ 0 ∧ isRect g ∧ 0 < threshold

instance (g : Grid) (t : Int) : Decidable (specValidInput g t) := by
  unfold specValidInput; infer_instance

/-- Written from the spec's words (§4.7 step 3): apply the merge buckets in
creation order; each bucket relabels every cell whose current value is in
the bucket's list to the bucket's key. -/
def specApplyMerges (g : Grid) (mm : List (Int × List Int)) : Grid :=
  mm.foldl
    (fun gr e => gr.map (fun row => row.map (fun v => if v ∈ e.2 then e.1 else v)))
    g

/-- The number of distinct grain ids (non-void ids) of a grid, as the core
itself counts them. -/
def distinctGrainCount (g : Grid) : Nat :=
  (get_sorted_grain_id_list g).1.length

/-! ### Basic list and cell lemmas -/

theorem getD_set_ne {α : Type} (l : List α) {m n : Nat} (a d : α)
    (h : m ≠ n) : (l.set m a).getD n d = l.getD n d := by
  simp [List.getD_eq_getElem?_getD, List.getElem?_set_ne h]

theorem getD_set_self {α : Type} (l : List α) {n : Nat} (a d : α)
    (h : n < l.length) : (l.set n a).getD n d = a := by
  simp [List.getD_eq_getElem?_getD, List.getElem?_set_self h]

theorem set_getD_self {α : Type} (l : List α) (n : Nat) (d : α) :
    l.set n (l.getD n d) = l := by
  induction l generalizing n with
  | nil => simp
  | cons a t ih =>
    cases n with
    | zero => simp
    | succ m =>
      show a :: t.set m ((a :: t).getD (m + 1) d) = a :: t
      rw [List.getD_cons_succ, ih]

theorem length_setCell (g : Grid) (r c : Nat) (v : Int) :
    (setCell g r c v).length = g.length := by
  simp [setCell]

theorem getD_setCell_row_ne (g : Grid) {r c : Nat} (v : Int) {i : Nat}
    (h : r ≠ i) : (setCell g r c v).getD i [] = g.getD i [] := by
  unfold setCell
  exact getD_set_ne _ _ _ h

theorem rowLength_setCell (g : Grid) (r c : Nat) (v : Int) (i : Nat) :
    ((setCell g r c v).getD i []).length = (g.getD i []).length := by
  by_cases hri : r = i
  · subst hri
    by_cases hr : r < g.length
    · rw [setCell, getD_set_self _ _ _ hr, List.length_set]
    · rw [setCell, List.set_eq_of_length_le (Nat.le_of_not_lt hr)]
  · rw [getD_setCell_row_ne _ _ hri]

theorem getCell_setCell_ne (g : Grid) {r c r' c' : Nat} (v : Int)
    (h : (r', c') ≠ (r, c)) :
    getCell (setCell g r c v) r' c' = getCell g r' c' := by
  by_cases hr : r = r'
  · subst hr
    have hc : c ≠ c' := by
      intro hc; exact h (by simp [hc])
    by_cases hlen : r < g.length
    · rw [getCell, setCell, getD_set_self _ _ _ hlen, getD_set_ne _ _ _ hc]
      rfl
    · rw [getCell, setCell, List.set_eq_of_length_le (Nat.le_of_not_lt hlen)]
      rfl
  · rw [getCell, getD_setCell_row_ne _ _ hr]
    rfl

theorem getCell_setCell_self (g : Grid) {r c : Nat} (v : Int)
    (hr : r < g.length) (hc : c < (g.getD r []).length) :
    getCell (setCell g r c v) r c = v := by
  rw [getCell, setCell, getD_set_self _ _ _ hr, getD_set_self _ _ _ hc]

theorem setCell_getCell_self (g : Grid) (r c : Nat) :
    setCell g r c (getCell g r c) = g := by
  rw [setCell, getCell, set_getD_self, set_getD_self]

/-! ### Scan order: membership and no-duplicates -/

theorem mem_posList {x_size y_size : Nat} {p : Nat × Nat} :
    p ∈ posList x_size y_size ↔ p.1 < y_size ∧ p.2 < x_size := by
  cases p with
  | mk r c =>
    constructor
    · intro h
      rcases List.mem_flatten.mp h with ⟨l, hl, hpl⟩
      rcases List.mem_map.mp hl with ⟨r', hr', hlr⟩
      rw [← hlr] at hpl
      rcases List.mem_map.mp hpl with ⟨c', hc', hpc⟩
      have h1 : r' = r := congrArg Prod.fst hpc
      have h2 : c' = c := congrArg Prod.snd hpc
      subst h1; subst h2
      exact ⟨List.mem_range.mp hr', List.mem_range.mp hc'⟩
    · intro h
      refine List.mem_flatten.mpr ⟨(List.range x_size).map (fun c => (r, c)), ?_, ?_⟩
      · exact List.mem_map.mpr ⟨r, List.mem_range.mpr h.1, rfl⟩
      · exact List.mem_map.mpr ⟨c, List.mem_range.mpr h.2, rfl⟩

theorem nodup_posList (x_size y_size : Nat) : (posList x_size y_size).Nodup := by
  rw [posList, List.nodup_flatten]
  constructor
  · intro l hl
    rcases List.mem_map.mp hl with ⟨r, _, hlr⟩
    rw [← hlr]
    exact (List.nodup_range x_size).map (fun a b h => by
      simpa using congrArg Prod.snd h)
  · have h := List.pairwise_lt_range y_size
    refine ((List.pairwise_map).mpr (h.imp ?_))
    intro a b hab p hpa hpb
    rcases List.mem_map.mp hpa with ⟨c1, _, hpc1⟩
    rcases List.mem_map.mp hpb with ⟨c2, _, hpc2⟩
    have : a = b := by
      rw [← hpc1] at hpc2
      simpa using (congrArg Prod.fst hpc2).symm
    exact absurd this (Nat.ne_of_lt hab)

/-! ### Generic machinery: folds that write only at the scanned position -/

theorem foldlS_getCell_of_not_mem {σ : Type}
    (step : (Grid × σ) → (Nat × Nat) → (Grid × σ)) (p : Nat × Nat)
    (W : ∀ s q, q ≠ p → getCell (step s q).1 p.1 p.2 = getCell s.1 p.1 p.2) :
    ∀ (l : List (Nat × Nat)) (s : Grid × σ), p ∉ l →
      getCell (l.foldl step s).1 p.1 p.2 = getCell s.1 p.1 p.2 := by
  intro l
  induction l with
  | nil => intro s _; rfl
  | cons q t ih =>
    intro s hp
    have hqp : q ≠ p := fun h => hp (by rw [h]; exact List.mem_cons_self _ _)
    rw [List.foldl_cons, ih _ (fun h => hp (List.mem_cons_of_mem _ h)), W s q hqp]

theorem foldlS_getCell_split {σ : Type}
    (step : (Grid × σ) → (Nat × Nat) → (Grid × σ)) (p : Nat × Nat)
    (W : ∀ s q, q ≠ p → getCell (step s q).1 p.1 p.2 = getCell s.1 p.1 p.2)
    (l1 l2 : List (Nat × Nat)) (s : Grid × σ) (hp2 : p ∉ l2) :
    getCell ((l1 ++ p :: l2).foldl step s).1 p.1 p.2
      = getCell (step (l1.foldl step s) p).1 p.1 p.2 := by
  rw [List.foldl_append, List.foldl_cons]
  exact foldlS_getCell_of_not_mem step p W l2 _ hp2

theorem foldlG_getCell_of_not_mem
    (step : Grid → (Nat × Nat) → Grid) (p : Nat × Nat)
    (W : ∀ g q, q ≠ p → getCell (step g q) p.1 p.2 = getCell g p.1 p.2) :
    ∀ (l : List (Nat × Nat)) (g : Grid), p ∉ l →
      getCell (l.foldl step g) p.1 p.2 = getCell g p.1 p.2 := by
  intro l
  induction l with
  | nil => intro g _; rfl
  | cons q t ih =>
    intro g hp
    have hqp : q ≠ p := fun h => hp (by rw [h]; exact List.mem_cons_self _ _)
    rw [List.foldl_cons, ih _ (fun h => hp (List.mem_cons_of_mem _ h)), W g q hqp]

theorem foldlG_getCell_split
    (step : Grid → (Nat × Nat) → Grid) (p : Nat × Nat)
    (W : ∀ g q, q ≠ p → getCell (step g q) p.1 p.2 = getCell g p.1 p.2)
    (l1 l2 : List (Nat × Nat)) (g : Grid) (hp2 : p ∉ l2) :
    getCell ((l1 ++ p :: l2).foldl step g) p.1 p.2
      = getCell (step (l1.foldl step g) p) p.1 p.2 := by
  rw [List.foldl_append, List.foldl_cons]
  exact foldlG_getCell_of_not_mem step p W l2 _ hp2

/-! ### Shape preservation -/

/-- Two grids have the same row count and the same row lengths. -/
def sameShape (g1 g2 : Grid) : Prop :=
  g1.length = g2.length ∧ ∀ i, (g1.getD i []).length = (g2.getD i []).length

theorem sameShape_refl (g : Grid) : sameShape g g := ⟨rfl, fun _ => rfl⟩

theorem sameShape_trans {g1 g2 g3 : Grid} (h1 : sameShape g1 g2)
    (h2 : sameShape g2 g3) : sameShape g1 g3 :=
  ⟨h1.1.trans h2.1, fun i => (h1.2 i).trans (h2.2 i)⟩

theorem sameShape_setCell (g : Grid) (r c : Nat) (v : Int) :
    sameShape (setCell g r c v) g :=
  ⟨length_setCell g r c v, rowLength_setCell g r c v⟩

theorem foldlS_sameShape {σ β : Type} (step : (Grid × σ) → β → (Grid × σ))
    (H : ∀ s b, sameShape (step s b).1 s.1) :
    ∀ (l : List β) (s : Grid × σ), sameShape (l.foldl step s).1 s.1 := by
  intro l
  induction l with
  | nil => intro s; exact sameShape_refl _
  | cons b t ih =>
    intro s
    exact sameShape_trans (ih (step s b)) (H s b)

theorem foldlG_sameShape {β : Type} (step : Grid → β → Grid)
    (H : ∀ g b, sameShape (step g b) g) :
    ∀ (l : List β) (g : Grid), sameShape (l.foldl step g) g := by
  intro l
  induction l with
  | nil => intro g; exact sameShape_refl _
  | cons b t ih =>
    intro g
    exact sameShape_trans (ih (step g b)) (H g b)

/-! ### Per-step facts: each loop body writes only the scanned cell -/

theorem cleanRule2_sameShape (g : Grid) (rng : Rng) (row col nv nl : Nat) :
    sameShape (cleanRule2 g rng row col nv nl).1 g := by
  unfold cleanRule2
  split
  · exact sameShape_setCell g row col VOID_PIXEL_ID
  · exact sameShape_refl g

theorem cleanStep_sameShape (xs ys : Nat) (s : Grid × Rng) (p : Nat × Nat) :
    sameShape (cleanStep xs ys s p).1 s.1 := by
  unfold cleanStep
  dsimp only
  split
  · exact sameShape_refl _
  · split
    · split
      · exact sameShape_refl _
      · exact sameShape_trans (cleanRule2_sameShape _ _ _ _ _ _)
          (sameShape_setCell _ _ _ _)
    · exact cleanRule2_sameShape _ _ _ _ _ _

theorem smoothStep_sameShape (xs ys : Nat) (s : Grid × Rng) (p : Nat × Nat) :
    sameShape (smoothStep xs ys s p).1 s.1 := by
  unfold smoothStep
  dsimp only
  split
  · exact sameShape_refl _
  · split
    · split
      · exact sameShape_refl _
      · exact sameShape_setCell _ _ _ _
    · exact sameShape_refl _

theorem padStep_sameShape (src : Grid) (xs ys : Nat) (s : Grid × Rng)
    (p : Nat × Nat) : sameShape (padStep src xs ys s p).1 s.1 := by
  unfold padStep
  dsimp only
  split
  · exact sameShape_setCell _ _ _ _
  · split
    · exact sameShape_setCell _ _ _ _
    · exact sameShape_refl _

theorem cleanRule2_getCell_ne (g : Grid) (rng : Rng) (row col nv nl : Nat)
    {a b : Nat} (h : (a, b) ≠ (row, col)) :
    getCell (cleanRule2 g rng row col nv nl).1 a b = getCell g a b := by
  unfold cleanRule2
  split
  · exact getCell_setCell_ne g _ h
  · rfl

theorem cleanStep_getCell_ne (xs ys : Nat) (s : Grid × Rng) {q p : Nat × Nat}
    (h : q ≠ p) :
    getCell (cleanStep xs ys s q).1 p.1 p.2 = getCell s.1 p.1 p.2 := by
  have hpq : (p.1, p.2) ≠ (q.1, q.2) := by
    cases p; cases q; exact Ne.symm h
  unfold cleanStep
  dsimp only
  split
  · rfl
  · split
    · split
      · rfl
      · rw [cleanRule2_getCell_ne _ _ _ _ _ _ hpq, getCell_setCell_ne _ _ hpq]
    · exact cleanRule2_getCell_ne _ _ _ _ _ _ hpq

theorem smoothStep_getCell_ne (xs ys : Nat) (s : Grid × Rng) {q p : Nat × Nat}
    (h : q ≠ p) :
    getCell (smoothStep xs ys s q).1 p.1 p.2 = getCell s.1 p.1 p.2 := by
  have hpq : (p.1, p.2) ≠ (q.1, q.2) := by
    cases p; cases q; exact Ne.symm h
  unfold smoothStep
  dsimp only
  split
  · rfl
  · split
    · split
      · rfl
      · exact getCell_setCell_ne _ _ hpq
    · rfl

theorem padStep_getCell_ne (src : Grid) (xs ys : Nat) (s : Grid × Rng)
    {q p : Nat × Nat} (h : q ≠ p) :
    getCell (padStep src xs ys s q).1 p.1 p.2 = getCell s.1 p.1 p.2 := by
  have hpq : (p.1, p.2) ≠ (q.1, q.2) := by
    cases p; cases q; exact Ne.symm h
  unfold padStep
  dsimp only
  split
  · exact getCell_setCell_ne _ _ hpq
  · split
    · exact getCell_setCell_ne _ _ hpq
    · rfl

/-! ### The unoriented sentinel is never overwritten by the local passes -/

theorem nodup_split_of_mem {α : Type} {l : List α} {a : α} (h : a ∈ l)
    (hn : l.Nodup) : ∃ l1 l2, l = l1 ++ a :: l2 ∧ a ∉ l1 ∧ a ∉ l2 := by
  rcases List.append_of_mem h with ⟨s, t, rfl⟩
  rw [List.nodup_append] at hn
  refine ⟨s, t, rfl, ?_, ?_⟩
  · intro hs
    exact hn.2.2 hs (List.mem_cons_self _ _)
  · exact fun ht => (List.nodup_cons.mp hn.2.1).1 ht

theorem cleanStep_preserves_unoriented (xs ys : Nat) (s : Grid × Rng)
    (q p : Nat × Nat) (hU : getCell s.1 p.1 p.2 = UNORIENTED_PIXEL_ID) :
    getCell (cleanStep xs ys s q).1 p.1 p.2 = UNORIENTED_PIXEL_ID := by
  by_cases hqp : q = p
  · subst hqp
    unfold cleanStep
    dsimp only
    split
    · exact hU
    · next hcond => exact absurd hU hcond
  · rw [cleanStep_getCell_ne xs ys s hqp]
    exact hU

theorem smoothStep_preserves_unoriented (xs ys : Nat) (s : Grid × Rng)
    (q p : Nat × Nat) (hU : getCell s.1 p.1 p.2 = UNORIENTED_PIXEL_ID) :
    getCell (smoothStep xs ys s q).1 p.1 p.2 = UNORIENTED_PIXEL_ID := by
  by_cases hqp : q = p
  · subst hqp
    unfold smoothStep
    dsimp only
    split
    · exact hU
    · next hcond => exact absurd hU hcond
  · rw [smoothStep_getCell_ne xs ys s hqp]
    exact hU

theorem foldl_cleanStep_preserves_unoriented (xs ys : Nat)
    (l : List (Nat × Nat)) :
    ∀ (s : Grid × Rng) (p : Nat × Nat),
      getCell s.1 p.1 p.2 = UNORIENTED_PIXEL_ID →
      getCell (l.foldl (cleanStep xs ys) s).1 p.1 p.2 = UNORIENTED_PIXEL_ID := by
  induction l with
  | nil => intro s p h; exact h
  | cons q t ih =>
    intro s p h
    exact ih _ p (cleanStep_preserves_unoriented xs ys s q p h)

theorem foldl_smoothStep_preserves_unoriented (xs ys : Nat)
    (l : List (Nat × Nat)) :
    ∀ (s : Grid × Rng) (p : Nat × Nat),
      getCell s.1 p.1 p.2 = UNORIENTED_PIXEL_ID →
      getCell (l.foldl (smoothStep xs ys) s).1 p.1 p.2 = UNORIENTED_PIXEL_ID := by
  induction l with
  | nil => intro s p h; exact h
  | cons q t ih =>
    intro s p h
    exact ih _ p (smoothStep_preserves_unoriented xs ys s q p h)

theorem getD_replicate_of_lt {α : Type} {n m : Nat} (a d : α) (h : m < n) :
    (List.replicate n a).getD m d = a := by
  rw [List.getD_eq_getElem?_getD, List.getElem?_replicate, if_pos h]
  rfl

/-- The value of `pad_edges` at any in-range position whose source cell is
live: the source value is copied. -/
theorem pad_edges_copies_live (g : Grid) (rng : Rng) {r c : Nat}
    (hr : r < g.length) (hc : c < (g.getD 0 []).length)
    (hlive : getCell g r c ≠ VOID_PIXEL_ID) :
    getCell (pad_edges g rng) r c = getCell g r c := by
  set xs := (g.getD 0 []).length with hxs
  set ys := g.length with hys
  have hmem : ((r, c) : Nat × Nat) ∈ posList xs ys := mem_posList.mpr ⟨hr, hc⟩
  rcases nodup_split_of_mem hmem (nodup_posList xs ys) with ⟨l1, l2, hsplit, _, hp2⟩
  have W : ∀ (s : Grid × Rng) (q : Nat × Nat), q ≠ (r, c) →
      getCell (padStep g xs ys s q).1 r c = getCell s.1 r c := by
    intro s q hq
    exact padStep_getCell_ne g xs ys s hq
  unfold pad_edges
  dsimp only
  rw [← hxs, ← hys, hsplit, foldlS_getCell_split _ _ W l1 l2 _ hp2]
  set s1 := l1.foldl (padStep g xs ys) (get_void_pixel_grid xs ys, rng) with hs1
  have hshape : sameShape s1.1 (get_void_pixel_grid xs ys) :=
    foldlS_sameShape _ (fun s b => padStep_sameShape g xs ys s b) l1 _
  have hlen : r < s1.1.length := by
    rw [hshape.1]
    simpa [get_void_pixel_grid] using hr
  have hrow : c < (s1.1.getD r []).length := by
    rw [hshape.2 r]
    have : ((get_void_pixel_grid xs ys).getD r []).length = xs := by
      unfold get_void_pixel_grid
      rw [getD_replicate_of_lt _ _ (by simpa using hr)]
      simp
    rw [this]
    exact hc
  unfold padStep
  dsimp only
  rw [if_pos hlive]
  exact getCell_setCell_self _ _ hlen hrow

/-- C1 (counterexample): the claim that every pass preserves
`UNORIENTED_PIXEL_ID` cells fails — `remove_small_grains` treats the
unoriented sentinel as an ordinary grain (here a 1-pixel "grain" under the
threshold, absorbed into grain 5), and `merge_grains` looks its orientation
up and merges it like any grain (here into the smaller id 5). -/
theorem unoriented_cell_rewritten_by_remove_and_merge :
    getCell ([[UNORIENTED_PIXEL_ID, 5], [5, 5]] : Grid) 0 0 = UNORIENTED_PIXEL_ID ∧
    remove_small_grains [[UNORIENTED_PIXEL_ID, 5], [5, 5]] 2 = some [[5, 5], [5, 5]] ∧
    (merge_grains [[UNORIENTED_PIXEL_ID, 5], [5, 5]] (fun _ => ⟨(0, 0, 0)⟩) 10).1
      = [[5, 5], [5, 5]] := by
  refine ⟨by decide, by decide, by decide⟩

/-- C1 (amended): every cell holding `UNORIENTED_PIXEL_ID` in the input
keeps its value and position under `clean_pixel_grid`, `smoothen_edges`
and `pad_edges`; the two grain-level passes (`remove_small_grains`,
`merge_grains`) may rewrite unoriented cells, as they treat the sentinel
as an ordinary grain id. -/
theorem unoriented_cells_preserved_by_local_passes (g : Grid) (rng : Rng)
    (r c : Nat) (hr : r < g.length) (hc : c < (g.getD 0 []).length)
    (hU : getCell g r c = UNORIENTED_PIXEL_ID) :
    getCell (clean_pixel_grid g rng) r c = UNORIENTED_PIXEL_ID ∧
    getCell (smoothen_edges g rng) r c = UNORIENTED_PIXEL_ID ∧
    getCell (pad_edges g rng) r c = UNORIENTED_PIXEL_ID := by
  refine ⟨?_, ?_, ?_⟩
  · unfold clean_pixel_grid
    dsimp only
    exact foldl_cleanStep_preserves_unoriented _ _ _ (g, rng) (r, c) hU
  · unfold smoothen_edges
    dsimp only
    exact foldl_smoothStep_preserves_unoriented _ _ _ (g, rng) (r, c) hU
  · rw [pad_edges_copies_live g rng hr hc (by rw [hU]; decide)]
    exact hU

/-- C1 (witness). -/
theorem unoriented_cells_preserved_witness :
    getCell (clean_pixel_grid [[UNORIENTED_PIXEL_ID, 7]] ⟨fun _ => 0, 0⟩) 0 0
      = UNORIENTED_PIXEL_ID ∧
    getCell (smoothen_edges [[UNORIENTED_PIXEL_ID, 7]] ⟨fun _ => 0, 0⟩) 0 0
      = UNORIENTED_PIXEL_ID ∧
    getCell (pad_edges [[UNORIENTED_PIXEL_ID, 7]] ⟨fun _ => 0, 0⟩) 0 0
      = UNORIENTED_PIXEL_ID :=
  unoriented_cells_preserved_by_local_passes [[UNORIENTED_PIXEL_ID, 7]]
    ⟨fun _ => 0, 0⟩ 0 0 (by decide) (by decide) (by decide)

/-! ### The denoiser's per-cell rules -/

theorem getD_mem {α : Type} {l : List α} {n : Nat} (d : α)
    (h : n < l.length) : l.getD n d ∈ l := by
  rw [List.getD_eq_getElem?_getD, List.getElem?_eq_getElem h]
  exact List.getElem_mem h

theorem rowLength_of_isRect {g : Grid} (hrect : isRect g) {r : Nat}
    (hr : r < g.length) : (g.getD r []).length = (g.getD 0 []).length :=
  hrect _ (getD_mem [] hr)

/-- C6 (amended): fix a scan position `(row, col)` of `clean_pixel_grid`
(`hsplit` names the scanned positions before and after it) and let `s1` be
the in-place state when the scan reaches it.  If strictly more than half
of its neighbours are void there, a non-unoriented cell ends the pass
void.  If it is void with half or fewer void neighbours, its final value
is the value of the one random draw among all its neighbours — so it
stays void when the draw lands on an unoriented neighbour (skip) or on a
void neighbour (a void value is copied); it becomes non-void only
otherwise. -/
theorem clean_pixel_grid_cell_rules (g : Grid) (rng : Rng)
    (l1 l2 : List (Nat × Nat)) (row col : Nat) (hrect : isRect g)
    (hsplit : posList (g.getD 0 []).length g.length
      = l1 ++ (row, col) :: l2) :
    let xs := (g.getD 0 []).length
    let ys := g.length
    let s1 := l1.foldl (cleanStep xs ys) (g, rng)
    let ns := get_neighbours col row xs ys
    let nv := (ns.filter
      (fun n => decide (getCell s1.1 n.2 n.1 = VOID_PIXEL_ID))).length
    ((getCell s1.1 row col ≠ UNORIENTED_PIXEL_ID ∧ 2 * nv > ns.length) →
      getCell (clean_pixel_grid g rng) row col = VOID_PIXEL_ID) ∧
    ((getCell s1.1 row col = VOID_PIXEL_ID ∧ 2 * nv ≤ ns.length ∧
        0 < ns.length) →
      getCell (clean_pixel_grid g rng) row col =
        (let copy := ns.getD (s1.2.stream s1.2.idx % ns.length) (0, 0)
         if getCell s1.1 copy.2 copy.1 = UNORIENTED_PIXEL_ID then
           VOID_PIXEL_ID
         else getCell s1.1 copy.2 copy.1)) := by
  intro xs ys s1 ns nv
  have hmem : ((row, col) : Nat × Nat) ∈ posList xs ys := by
    rw [hsplit]
    exact List.mem_append.mpr (Or.inr (List.mem_cons_self _ _))
  have hrow : row < ys := (mem_posList.mp hmem).1
  have hcol : col < xs := (mem_posList.mp hmem).2
  have hnd := nodup_posList xs ys
  rw [hsplit, List.nodup_append] at hnd
  have hp2 : ((row, col) : Nat × Nat) ∉ l2 := (List.nodup_cons.mp hnd.2.1).1
  have W : ∀ (s : Grid × Rng) (q : Nat × Nat), q ≠ (row, col) →
      getCell (cleanStep xs ys s q).1 row col = getCell s.1 row col := by
    intro s q hq
    exact cleanStep_getCell_ne xs ys s hq
  have hfinal : getCell (clean_pixel_grid g rng) row col
      = getCell (cleanStep xs ys s1 (row, col)).1 row col := by
    unfold clean_pixel_grid
    dsimp only
    rw [hsplit]
    exact foldlS_getCell_split _ _ W l1 l2 (g, rng) hp2
  have hshape : sameShape s1.1 g :=
    foldlS_sameShape _ (fun s b => cleanStep_sameShape xs ys s b) l1 (g, rng)
  have hlen : row < s1.1.length := by rw [hshape.1]; exact hrow
  have hrowlen : col < (s1.1.getD row []).length := by
    rw [hshape.2 row, rowLength_of_isRect hrect hrow]
    exact hcol
  constructor
  · rintro ⟨hU, hmaj⟩
    rw [hfinal]
    unfold cleanStep
    dsimp only
    rw [if_neg hU,
      if_neg (fun h => absurd (Nat.lt_of_lt_of_le hmaj h.2) (Nat.lt_irrefl _))]
    unfold cleanRule2
    by_cases hvoid : getCell s1.1 row col = VOID_PIXEL_ID
    · rw [if_neg (fun h => h.1 hvoid)]
      exact hvoid
    · rw [if_pos ⟨hvoid, hmaj⟩]
      exact getCell_setCell_self _ _ hlen hrowlen
  · rintro ⟨hvoid, hle, hpos⟩
    rw [hfinal]
    unfold cleanStep
    dsimp only
    rw [if_neg (by rw [hvoid]; decide), if_pos ⟨hvoid, hle⟩]
    split
    · next hUdraw =>
      have hU2 : getCell s1.1 (ns.getD (s1.2.stream s1.2.idx % ns.length) (0, 0)).2
          (ns.getD (s1.2.stream s1.2.idx % ns.length) (0, 0)).1
            = UNORIENTED_PIXEL_ID := hUdraw
      rw [if_pos hU2]
      exact hvoid
    · next hUdraw =>
      have hU2 : ¬(getCell s1.1 (ns.getD (s1.2.stream s1.2.idx % ns.length) (0, 0)).2
          (ns.getD (s1.2.stream s1.2.idx % ns.length) (0, 0)).1
            = UNORIENTED_PIXEL_ID) := hUdraw
      rw [if_neg hU2]
      unfold cleanRule2
      rw [if_neg (fun h => absurd (Nat.lt_of_lt_of_le h.2 hle) (Nat.lt_irrefl _))]
      exact getCell_setCell_self _ _ hlen hrowlen

/-- C6 (witness): the spec's own scenario — the void centre of a 3×3 grid
of grain 5 has no void neighbours, the draw lands on a 5-cell, and the
centre becomes 5. -/
theorem clean_pixel_grid_cell_rules_witness :
    getCell (clean_pixel_grid [[5, 5, 5], [5, VOID_PIXEL_ID, 5], [5, 5, 5]]
      ⟨fun _ => 0, 0⟩) 1 1 = 5 := by
  obtain ⟨h1, h2⟩ := clean_pixel_grid_cell_rules
    [[5, 5, 5], [5, VOID_PIXEL_ID, 5], [5, 5, 5]] ⟨fun _ => 0, 0⟩
    [(0, 0), (0, 1), (0, 2), (1, 0)] [(1, 2), (2, 0), (2, 1), (2, 2)] 1 1
    (by decide) (by decide)
  rw [h2 ⟨by decide, by decide, by decide⟩]
  decide

/-- C6 (counterexample): a void cell whose neighbours are half or fewer
void, in a grid containing no unoriented cell at all, still ends the pass
void — the single draw (from all neighbours, not only live ones) lands on
a void neighbour and copies the void value.  This refutes the claim that
such a cell "becomes non-void unless its single random draw lands on an
UNORIENTED_PIXEL_ID neighbour". -/
theorem clean_void_cell_can_stay_void :
    getCell ([[VOID_PIXEL_ID, 5], [5, VOID_PIXEL_ID]] : Grid) 0 0
      = VOID_PIXEL_ID ∧
    2 * ((get_neighbours 0 0 2 2).filter
      (fun n => decide (getCell [[VOID_PIXEL_ID, 5], [5, VOID_PIXEL_ID]] n.2 n.1
        = VOID_PIXEL_ID))).length ≤ (get_neighbours 0 0 2 2).length ∧
    UNORIENTED_PIXEL_ID ∉ ([[VOID_PIXEL_ID, 5], [5, VOID_PIXEL_ID]] : Grid).flatten ∧
    getCell (clean_pixel_grid [[VOID_PIXEL_ID, 5], [5, VOID_PIXEL_ID]]
      ⟨fun _ => 2, 0⟩) 0 0 = VOID_PIXEL_ID := by
  refine ⟨by decide, by decide, by decide, by decide⟩

/-! ### Counting lemmas for the padder -/

theorem countP_le_of_index {α : Type} (p : α → Bool) (d : α) :
    ∀ (l1 l2 : List α), l1.length = l2.length →
      (∀ i < l1.length, p (l1.getD i d) → p (l2.getD i d)) →
      l1.countP p ≤ l2.countP p := by
  intro l1
  induction l1 with
  | nil => intro l2 _ _; simp
  | cons a t ih =>
    intro l2 hlen hpt
    cases l2 with
    | nil => simp at hlen
    | cons b t2 =>
      rw [List.countP_cons, List.countP_cons]
      have htail : t.countP p ≤ t2.countP p := by
        refine ih t2 (by simpa using hlen) ?_
        intro i hi hp
        exact hpt (i + 1) (by simpa using hi) hp
      have hhead : (if p a then 1 else 0) ≤ (if p b then 1 else 0) := by
        by_cases hpa : p a
        · have hpb : p b := hpt 0 (by simp) (by simpa using hpa)
          simp [hpa, hpb]
        · simp [hpa]
      omega

theorem countP_flatten_le_of_pointwise (p : Int → Bool) (xs : Nat) :
    ∀ (g1 g2 : Grid), (∀ row ∈ g1, row.length = xs) →
      g2.length = g1.length → (∀ row ∈ g2, row.length = xs) →
      (∀ r c, r < g1.length → c < xs →
        p (getCell g1 r c) → p (getCell g2 r c)) →
      g1.flatten.countP p ≤ g2.flatten.countP p := by
  intro g1
  induction g1 with
  | nil => intro g2 _ _ _ _; simp
  | cons row1 rest1 ih =>
    intro g2 h1 hlen h2 hpt
    cases g2 with
    | nil => simp at hlen
    | cons row2 rest2 =>
      rw [List.flatten_cons, List.flatten_cons, List.countP_append,
        List.countP_append]
      have hrow : row1.countP p ≤ row2.countP p := by
        refine countP_le_of_index p VOID_PIXEL_ID row1 row2 ?_ ?_
        · rw [h1 row1 (List.mem_cons_self _ _), h2 row2 (List.mem_cons_self _ _)]
        · intro i hi hp
          have hixs : i < xs := h1 row1 (List.mem_cons_self _ _) ▸ hi
          exact hpt 0 i (by simp) hixs hp
      have hrest : rest1.flatten.countP p ≤ rest2.flatten.countP p := by
        refine ih rest2 (fun row hm => h1 row (List.mem_cons_of_mem _ hm))
          (by simpa using hlen) (fun row hm => h2 row (List.mem_cons_of_mem _ hm)) ?_
        intro r c hr hc hp
        exact hpt (r + 1) c (by simpa using hr) hc hp
      omega

theorem getD_eq_getElem_of_lt {α : Type} {l : List α} {i : Nat} (d : α)
    (h : i < l.length) : l.getD i d = l[i] := by
  rw [List.getD_eq_getElem?_getD, List.getElem?_eq_getElem h]
  rfl

theorem rows_length_of_sameShape_void {g : Grid} {xs ys : Nat}
    (hs : sameShape g (get_void_pixel_grid xs ys)) :
    ∀ row ∈ g, row.length = xs := by
  intro row hm
  rcases List.mem_iff_getElem.mp hm with ⟨i, hi, hrow⟩
  have hlen : g.length = ys := by
    simpa [get_void_pixel_grid] using hs.1
  have hxs : (g.getD i []).length = xs := by
    rw [hs.2 i]
    unfold get_void_pixel_grid
    rw [getD_replicate_of_lt _ _ (by rw [← hlen]; exact hi)]
    simp
  rw [← hrow, ← getD_eq_getElem_of_lt [] hi]
  exact hxs

/-- C7 (counterexample): `pad_edges` has no unoriented-draw skip — a void
cell whose only live neighbour is unoriented is filled with
`UNORIENTED_PIXEL_ID`, so the unoriented cell count grows from 1 to 2,
refuting "the number of cells holding UNORIENTED_PIXEL_ID in the output
equals the number in the input". -/
theorem pad_edges_fills_with_unoriented :
    countUnoriented ([[VOID_PIXEL_ID, UNORIENTED_PIXEL_ID]] : Grid) = 1 ∧
    countUnoriented (pad_edges [[VOID_PIXEL_ID, UNORIENTED_PIXEL_ID]]
      ⟨fun _ => 0, 0⟩) = 2 :=
  ⟨by decide, by decide⟩

/-- C7 (amended): for every rectangular input grid, `pad_edges` never
decreases the non-void cell count, and never decreases (but may increase)
the unoriented cell count — a live cell, unoriented ones included, is
always copied; void cells are only ever filled with a live neighbour's
value, which may itself be `UNORIENTED_PIXEL_ID` since the padder draws
from all live neighbours with no unoriented skip. -/
theorem pad_edges_count_monotonicity (g : Grid) (rng : Rng)
    (hrect : isRect g) :
    countNonVoid g ≤ countNonVoid (pad_edges g rng) ∧
    countUnoriented g ≤ countUnoriented (pad_edges g rng) := by
  have hshape : sameShape (pad_edges g rng)
      (get_void_pixel_grid (g.getD 0 []).length g.length) := by
    unfold pad_edges
    dsimp only
    exact foldlS_sameShape _ (fun s b => padStep_sameShape g _ _ s b) _ _
  have hlen2 : (pad_edges g rng).length = g.length := by
    rw [hshape.1]
    simp [get_void_pixel_grid]
  have h2 : ∀ row ∈ pad_edges g rng, row.length = (g.getD 0 []).length :=
    rows_length_of_sameShape_void hshape
  constructor
  · refine countP_flatten_le_of_pointwise _ _ g _ hrect hlen2 h2 ?_
    intro r c hr hc hp
    have hcopy : getCell (pad_edges g rng) r c = getCell g r c :=
      pad_edges_copies_live g rng hr hc (by simpa using hp)
    rw [hcopy]
    exact hp
  · rw [countUnoriented, countUnoriented, List.count_eq_countP,
      List.count_eq_countP]
    refine countP_flatten_le_of_pointwise _ _ g _ hrect hlen2 h2 ?_
    intro r c hr hc hp
    have hU : getCell g r c = UNORIENTED_PIXEL_ID := by simpa using hp
    have hcopy : getCell (pad_edges g rng) r c = getCell g r c :=
      pad_edges_copies_live g rng hr hc (by rw [hU]; decide)
    rw [hcopy]
    exact hp

/-- C7 (witness). -/
theorem pad_edges_count_monotonicity_witness :
    countNonVoid [[UNORIENTED_PIXEL_ID, 5]]
      ≤ countNonVoid (pad_edges [[UNORIENTED_PIXEL_ID, 5]] ⟨fun _ => 0, 0⟩) ∧
    countUnoriented [[UNORIENTED_PIXEL_ID, 5]]
      ≤ countUnoriented (pad_edges [[UNORIENTED_PIXEL_ID, 5]] ⟨fun _ => 0, 0⟩) :=
  pad_edges_count_monotonicity [[UNORIENTED_PIXEL_ID, 5]] ⟨fun _ => 0, 0⟩
    (by decide)

/-! ### No input validation: non-positive thresholds are accepted -/

theorem pyAbs_nonneg (i : Int) : 0 ≤ pyAbs i := by
  unfold pyAbs
  split
  · omega
  · omega

theorem orientationError_nonneg (o1 o2 : Int × Int × Int) :
    0 ≤ orientationError o1 o2 := by
  unfold orientationError
  have h1 := pyAbs_nonneg (o1.1 - o2.1)
  have h2 := pyAbs_nonneg (o1.2.1 - o2.2.1)
  have h3 := pyAbs_nonneg (o1.2.2 - o2.2.2)
  omega

theorem foldl_no_change {α β : Type} (f : β → α → β) (h : ∀ b a, f b a = b) :
    ∀ (l : List α) (b : β), l.foldl f b = b := by
  intro l
  induction l with
  | nil => intro b; rfl
  | cons a tl ih =>
    intro b
    rw [List.foldl_cons, h b a]
    exact ih b

theorem buildMergeMap_nonpos (ids : List Int) (m : Int → Grain) (t : Int)
    (ht : t ≤ 0) : buildMergeMap ids m t = [] := by
  unfold buildMergeMap
  refine foldl_no_change _ ?_ _ _
  intro mm i
  dsimp only
  refine foldl_no_change _ ?_ _ _
  intro mm2 j
  dsimp only
  rw [if_neg]
  intro hlt
  have hnn := orientationError_nonneg
    (m (ids.getD i 0)).get_orientation (m (ids.getD j 0)).get_orientation
  omega

theorem remove_fold_skip (flattened : List Int) (t : Int) (xs ys : Nat)
    (ht : ∀ id : Int, (flattened.count id : Int) ≥ t) :
    ∀ (l : List Int) (g : Grid),
      l.foldl
        (fun acc id =>
          match acc with
          | none => none
          | some g =>
            if (flattened.count id : Int) ≥ t then some g
            else (removeGrainStep xs ys g id).map (fun r => r.1))
        (some g) = some g := by
  intro l
  induction l with
  | nil => intro g; rfl
  | cons a tl ih =>
    intro g
    rw [List.foldl_cons]
    dsimp only
    rw [if_pos (ht a)]
    exact ih g

/-- C2 (counterexample): a call that the spec's validity contract rejects
(threshold `0` is non-positive) does not fail with any error — it runs to
completion and returns the grid unchanged, so no `InvalidInput` failure
exists anywhere in this core. -/
theorem no_invalid_input_failure :
    ¬ specValidInput [[1, 1], [1, 1]] 0 ∧
    remove_small_grains [[1, 1], [1, 1]] 0 = some [[1, 1], [1, 1]] :=
  ⟨by decide, by decide⟩

/-- C2 (amended): the core performs no input validation at all.  A
non-positive threshold is accepted silently: `remove_small_grains` skips
every grain (every count is `≥ t`) and returns the grid unchanged, and
`merge_grains` builds an empty merge map (an orientation distance is never
below a non-positive threshold) and returns the grid unchanged.  No
`InvalidInput` error path exists. -/
theorem nonpositive_threshold_accepted (g : Grid) (m : Int → Grain)
    (t tq : Int) (ht : t ≤ 0) (htq : tq ≤ 0) :
    remove_small_grains g t = some g ∧ (merge_grains g m tq).1 = g := by
  constructor
  · unfold remove_small_grains
    dsimp only
    refine remove_fold_skip _ t _ _ ?_ _ _
    intro id
    have : (0 : Int) ≤ ((get_sorted_grain_id_list g).2.count id : Int) :=
      Int.natCast_nonneg _
    omega
  · unfold merge_grains
    dsimp only
    rw [buildMergeMap_nonpos _ _ _ htq]
    rfl

/-- C2 (witness). -/
theorem nonpositive_threshold_accepted_witness :
    remove_small_grains [[3, 3]] (-1) = some [[3, 3]] ∧
    (merge_grains [[3, 3]] (fun _ => ⟨(0, 0, 0)⟩) (-1)).1 = [[3, 3]] :=
  nonpositive_threshold_accepted [[3, 3]] (fun _ => ⟨(0, 0, 0)⟩) (-1) (-1)
    (by decide) (by decide)

/-! ### Facts about `pyDedup` and the sorted id list -/

theorem mem_pyDedupAux {α : Type} [DecidableEq α] (x : α) :
    ∀ (l seen : List α), x ∈ pyDedupAux l seen ↔ x ∈ l ∧ x ∉ seen := by
  intro l
  induction l with
  | nil => intro seen; simp [pyDedupAux]
  | cons a tl ih =>
    intro seen
    unfold pyDedupAux
    by_cases ha : a ∈ seen
    · rw [if_pos ha, ih]
      constructor
      · rintro ⟨hx, hns⟩
        exact ⟨List.mem_cons_of_mem _ hx, hns⟩
      · rintro ⟨hx, hns⟩
        cases List.mem_cons.mp hx with
        | inl h => exact absurd (h ▸ ha) hns
        | inr h => exact ⟨h, hns⟩
    · rw [if_neg ha, List.mem_cons, ih]
      constructor
      · rintro (h | ⟨hx, hns⟩)
        · exact ⟨h ▸ List.mem_cons_self a tl, h ▸ ha⟩
        · exact ⟨List.mem_cons_of_mem _ hx,
            fun hs => hns (List.mem_cons_of_mem _ hs)⟩
      · rintro ⟨hx, hns⟩
        by_cases hxa : x = a
        · exact Or.inl hxa
        · cases List.mem_cons.mp hx with
          | inl h => exact Or.inl h
          | inr h =>
            exact Or.inr ⟨h, fun hs => (List.mem_cons.mp hs).elim hxa hns⟩

theorem mem_pyDedup {α : Type} [DecidableEq α] {x : α} {l : List α} :
    x ∈ pyDedup l ↔ x ∈ l := by
  unfold pyDedup
  rw [mem_pyDedupAux]
  simp

theorem nodup_pyDedupAux {α : Type} [DecidableEq α] :
    ∀ (l seen : List α), (pyDedupAux l seen).Nodup := by
  intro l
  induction l with
  | nil => intro seen; exact List.nodup_nil
  | cons a tl ih =>
    intro seen
    unfold pyDedupAux
    by_cases ha : a ∈ seen
    · rw [if_pos ha]
      exact ih seen
    · rw [if_neg ha]
      refine List.nodup_cons.mpr ⟨?_, ih _⟩
      intro hmem
      exact ((mem_pyDedupAux a tl _).mp hmem).2 (List.mem_cons_self _ _)

theorem nodup_pyDedup {α : Type} [DecidableEq α] (l : List α) :
    (pyDedup l).Nodup := nodup_pyDedupAux l []

theorem find?_pyDedupAux {α : Type} [DecidableEq α] (p : α → Bool) :
    ∀ (l seen : List α), (∀ a ∈ seen, p a = false) →
      (pyDedupAux l seen).find? p = l.find? p := by
  intro l
  induction l with
  | nil => intro seen _; rfl
  | cons a tl ih =>
    intro seen hseen
    unfold pyDedupAux
    by_cases ha : a ∈ seen
    · rw [if_pos ha, ih seen hseen, List.find?_cons, hseen a ha]
    · rw [if_neg ha, List.find?_cons, List.find?_cons]
      cases hpa : p a with
      | true => rfl
      | false =>
        refine ih (a :: seen) ?_
        intro b hb
        cases List.mem_cons.mp hb with
        | inl h => exact h ▸ hpa
        | inr h => exact hseen b h

theorem find?_pyDedup {α : Type} [DecidableEq α] (p : α → Bool) (l : List α) :
    (pyDedup l).find? p = l.find? p :=
  find?_pyDedupAux p l [] (by intro a ha; cases ha)

theorem mem_sorted_id_list {g : Grid} {id : Int} :
    id ∈ (get_sorted_grain_id_list g).1 ↔
      id ∈ g.flatten ∧ id ≠ VOID_PIXEL_ID := by
  unfold get_sorted_grain_id_list
  dsimp only
  rw [(List.perm_insertionSort _ _).mem_iff]
  by_cases hv : VOID_PIXEL_ID ∈ pyDedup g.flatten
  · rw [if_pos hv, List.Nodup.mem_erase_iff (nodup_pyDedup _)]
    rw [mem_pyDedup]
    exact ⟨fun h => ⟨h.2, h.1⟩, fun h => ⟨h.2, h.1⟩⟩
  · rw [if_neg hv, mem_pyDedup]
    constructor
    · intro h
      refine ⟨h, ?_⟩
      intro he
      exact hv (he ▸ mem_pyDedup.mpr h)
    · exact fun h => h.1

theorem nodup_sorted_id_list (g : Grid) :
    (get_sorted_grain_id_list g).1.Nodup := by
  unfold get_sorted_grain_id_list
  dsimp only
  rw [(List.perm_insertionSort _ _).nodup_iff]
  by_cases hv : VOID_PIXEL_ID ∈ pyDedup g.flatten
  · rw [if_pos hv]
    exact (nodup_pyDedup _).erase _
  · rw [if_neg hv]
    exact nodup_pyDedup _

theorem distinctGrainCount_eq_card (g : Grid) :
    distinctGrainCount g = (g.flatten.toFinset.erase VOID_PIXEL_ID).card := by
  unfold distinctGrainCount get_sorted_grain_id_list
  dsimp only
  rw [List.length_insertionSort]
  have hto : (pyDedup g.flatten).toFinset = g.flatten.toFinset := by
    apply Finset.ext
    intro a
    rw [List.mem_toFinset, List.mem_toFinset, mem_pyDedup]
  have hcard : (pyDedup g.flatten).length = g.flatten.toFinset.card := by
    rw [← hto, List.toFinset_card_of_nodup (nodup_pyDedup _)]
  by_cases hv : VOID_PIXEL_ID ∈ pyDedup g.flatten
  · rw [if_pos hv, List.length_erase_of_mem hv, hcard,
      Finset.card_erase_of_mem (by rw [← hto]; exact List.mem_toFinset.mpr hv)]
  · rw [if_neg hv,
      Finset.erase_eq_of_not_mem (fun h => hv (by
        rw [← hto] at h
        exact List.mem_toFinset.mp h)), hcard]

/-- C10 (confirmed): `get_sorted_grain_id_list` removes only the void
sentinel, so an unoriented cell puts `UNORIENTED_PIXEL_ID` into the id
list; consequently `remove_small_grains` counts it against the threshold
and reassigns its pixels (here a single unoriented pixel absorbed into
grain 6), and `merge_grains` looks its orientation up in the grain map —
with an identical orientation it is merged into grain 6, with a distant
one it is left alone, so the outcome depends on the sentinel's grain-map
entry. -/
theorem unoriented_treated_as_ordinary_grain :
    (∀ g : Grid, UNORIENTED_PIXEL_ID ∈ g.flatten →
      UNORIENTED_PIXEL_ID ∈ (get_sorted_grain_id_list g).1) ∧
    remove_small_grains [[UNORIENTED_PIXEL_ID, 6], [6, 6]] 2
      = some [[6, 6], [6, 6]] ∧
    (merge_grains [[UNORIENTED_PIXEL_ID, 6], [6, 6]]
      (fun _ => ⟨(0, 0, 0)⟩) 10).1 = [[6, 6], [6, 6]] ∧
    (merge_grains [[UNORIENTED_PIXEL_ID, 6], [6, 6]]
      (fun i => if i = UNORIENTED_PIXEL_ID then ⟨(100, 0, 0)⟩
        else ⟨(0, 0, 0)⟩) 10).1 = [[UNORIENTED_PIXEL_ID, 6], [6, 6]] := by
  refine ⟨?_, by decide, by decide, by decide⟩
  intro g hU
  exact mem_sorted_id_list.mpr ⟨hU, by decide⟩

/-- C10 (witness). -/
theorem unoriented_treated_as_ordinary_grain_witness :
    UNORIENTED_PIXEL_ID ∈ (get_sorted_grain_id_list [[UNORIENTED_PIXEL_ID, 3]]).1 :=
  unoriented_treated_as_ordinary_grain.1 [[UNORIENTED_PIXEL_ID, 3]] (by decide)

/-! ### The mode computation: Python `max(set(l), key=l.count)` equals the
first-encountered most frequent element -/

theorem find?_congr {α : Type} {p q : α → Bool} :
    ∀ l : List α, (∀ a ∈ l, p a = q a) → l.find? p = l.find? q := by
  intro l
  induction l with
  | nil => intro _; rfl
  | cons a tl ih =>
    intro h
    rw [List.find?_cons, List.find?_cons, h a (List.mem_cons_self _ _),
      ih (fun b hb => h b (List.mem_cons_of_mem _ hb))]

theorem foldl_max_by_eq_find? (f : Int → Nat) :
    ∀ (d : List Int) (b : Int),
      d.foldl
        (fun acc x =>
          match acc with
          | none => some x
          | some b' => if f b' < f x then some x else some b')
        (some b)
      = (b :: d).find? (fun x => decide (∀ y ∈ b :: d, f y ≤ f x)) := by
  intro d
  induction d with
  | nil =>
    intro b
    rw [List.foldl_nil, List.find?_cons_of_pos]
    simp
  | cons x xs ih =>
    intro b
    rw [List.foldl_cons]
    dsimp only
    by_cases hlt : f b < f x
    · rw [if_pos hlt, ih x]
      have h2 : (b :: x :: xs).find?
            (fun c => decide (∀ y ∈ b :: x :: xs, f y ≤ f c))
          = (x :: xs).find? (fun c => decide (∀ y ∈ b :: x :: xs, f y ≤ f c)) := by
        refine List.find?_cons_of_neg _ ?_
        simp only [decide_eq_true_eq, not_forall]
        exact ⟨x, by simp, by omega⟩
      have h3 : (x :: xs).find? (fun c => decide (∀ y ∈ x :: xs, f y ≤ f c))
          = (x :: xs).find? (fun c => decide (∀ y ∈ b :: x :: xs, f y ≤ f c)) := by
        refine find?_congr _ ?_
        intro a ha
        refine decide_eq_decide.mpr ?_
        constructor
        · intro hall y hy
          rcases List.mem_cons.mp hy with hy1 | hy2
          · have hxa : f x ≤ f a := hall x (List.mem_cons_self _ _)
            subst hy1
            omega
          · exact hall y hy2
        · intro hall y hy
          exact hall y (List.mem_cons_of_mem _ hy)
      exact h3.trans h2.symm
    · rw [if_neg hlt, ih b]
      have hxb : f x ≤ f b := by omega
      by_cases hb : ∀ y ∈ b :: xs, f y ≤ f b
      · have hL : (b :: xs).find? (fun c => decide (∀ y ∈ b :: xs, f y ≤ f c))
            = some b :=
          List.find?_cons_of_pos _ (by
            simp only [decide_eq_true_eq]
            exact hb)
        have hR : (b :: x :: xs).find?
              (fun c => decide (∀ y ∈ b :: x :: xs, f y ≤ f c))
            = some b :=
          List.find?_cons_of_pos _ (by
            simp only [decide_eq_true_eq]
            intro y hy
            rcases List.mem_cons.mp hy with hy1 | hy2
            · exact hy1 ▸ le_refl _
            · rcases List.mem_cons.mp hy2 with hy3 | hy4
              · exact hy3 ▸ hxb
              · exact hb y (List.mem_cons_of_mem _ hy4))
        rw [hL, hR]
      · have hbneg : ¬ (∀ y ∈ b :: x :: xs, f y ≤ f b) := by
          intro hall
          refine hb ?_
          intro y hy
          refine hall y ?_
          rcases List.mem_cons.mp hy with hy1 | hy2
          · exact hy1 ▸ List.mem_cons_self _ _
          · exact List.mem_cons_of_mem _ (List.mem_cons_of_mem _ hy2)
        have hxneg : ¬ (∀ y ∈ b :: x :: xs, f y ≤ f x) := by
          intro hall
          refine hb ?_
          intro y hy
          have hyx : f y ≤ f x := by
            refine hall y ?_
            rcases List.mem_cons.mp hy with hy1 | hy2
            · exact hy1 ▸ List.mem_cons_self _ _
            · exact List.mem_cons_of_mem _ (List.mem_cons_of_mem _ hy2)
          omega
        have hL : (b :: xs).find? (fun c => decide (∀ y ∈ b :: xs, f y ≤ f c))
            = xs.find? (fun c => decide (∀ y ∈ b :: xs, f y ≤ f c)) :=
          List.find?_cons_of_neg _ (by
            simp only [decide_eq_true_eq]
            exact hb)
        have hR1 : (b :: x :: xs).find?
              (fun c => decide (∀ y ∈ b :: x :: xs, f y ≤ f c))
            = (x :: xs).find?
              (fun c => decide (∀ y ∈ b :: x :: xs, f y ≤ f c)) :=
          List.find?_cons_of_neg _ (by
            simp only [decide_eq_true_eq]
            exact hbneg)
        have hR2 : (x :: xs).find?
              (fun c => decide (∀ y ∈ b :: x :: xs, f y ≤ f c))
            = xs.find? (fun c => decide (∀ y ∈ b :: x :: xs, f y ≤ f c)) :=
          List.find?_cons_of_neg _ (by
            simp only [decide_eq_true_eq]
            exact hxneg)
        have hcongr : xs.find? (fun c => decide (∀ y ∈ b :: xs, f y ≤ f c))
            = xs.find? (fun c => decide (∀ y ∈ b :: x :: xs, f y ≤ f c)) := by
          refine find?_congr _ ?_
          intro a ha
          refine decide_eq_decide.mpr ?_
          constructor
          · intro hall y hy
            rcases List.mem_cons.mp hy with hy1 | hy2
            · exact hy1 ▸ hall b (List.mem_cons_self _ _)
            · rcases List.mem_cons.mp hy2 with hy3 | hy4
              · have hba : f b ≤ f a := hall b (List.mem_cons_self _ _)
                subst hy3
                omega
              · exact hall y (List.mem_cons_of_mem _ hy4)
          · intro hall y hy
            rcases List.mem_cons.mp hy with hy1 | hy2
            · exact hy1 ▸ hall b (List.mem_cons_self _ _)
            · exact hall y
                (List.mem_cons_of_mem _ (List.mem_cons_of_mem _ hy2))
        rw [hL, hR1, hR2, hcongr]

theorem mostFrequent_eq_specMode (l : List Int) :
    mostFrequent l = specMode l := by
  unfold mostFrequent specMode
  cases hd : pyDedup l with
  | nil =>
    have hl : l = [] := by
      cases l with
      | nil => rfl
      | cons a tl =>
        exfalso
        have hm : a ∈ pyDedup (a :: tl) :=
          mem_pyDedup.mpr (List.mem_cons_self _ _)
        rw [hd] at hm
        cases hm
    subst hl
    rfl
  | cons x xs =>
    have hmemiff : ∀ y : Int, y ∈ x :: xs ↔ y ∈ l := by
      intro y
      rw [← hd, mem_pyDedup]
    calc (x :: xs).foldl
          (fun acc c =>
            match acc with
            | none => some c
            | some b => if l.count b < l.count c then some c else some b)
          none
        = xs.foldl
          (fun acc c =>
            match acc with
            | none => some c
            | some b => if l.count b < l.count c then some c else some b)
          (some x) := by rw [List.foldl_cons]
      _ = (x :: xs).find?
            (fun c => decide (∀ y ∈ x :: xs, (fun a => l.count a) y ≤ (fun a => l.count a) c)) :=
          foldl_max_by_eq_find? (fun a => l.count a) xs x
      _ = (x :: xs).find? (fun c => decide (∀ y ∈ l, l.count y ≤ l.count c)) := by
          refine find?_congr _ ?_
          intro a _
          refine decide_eq_decide.mpr ?_
          constructor
          · intro hall y hy
            exact hall y ((hmemiff y).mpr hy)
          · intro hall y hy
            exact hall y ((hmemiff y).mp hy)
      _ = l.find? (fun c => decide (∀ y ∈ l, l.count y ≤ l.count c)) := by
          rw [← hd]
          exact find?_pyDedup _ l

theorem foldl_ext {α β : Type} (f g : β → α → β) (h : ∀ b a, f b a = g b a) :
    ∀ (l : List α) (b : β), l.foldl f b = l.foldl g b := by
  intro l
  induction l with
  | nil => intro b; rfl
  | cons a tl ih =>
    intro b
    rw [List.foldl_cons, List.foldl_cons, h b a]
    exact ih (g b a)

/-- C3 (confirmed): `remove_small_grains` equals the specification's
description of it — precomputed counts drive the skip test, each
under-threshold grain's current coordinates are gathered, and the
replacement id is the most frequent id among the halo values with ties
broken by first-encountered order in the halo enumeration (under the
documented modelling of Python set iteration as first-occurrence
order). -/
theorem remove_small_grains_matches_spec (g : Grid) (t : Int) :
    remove_small_grains g t = specRemoveSmallGrains g t := by
  unfold remove_small_grains specRemoveSmallGrains
  dsimp only
  refine foldl_ext _ _ ?_ _ _
  intro acc id
  cases acc with
  | none => rfl
  | some g' =>
    dsimp only
    by_cases hc : ((get_sorted_grain_id_list g).2.count id : Int) ≥ t
    · rw [if_pos hc, if_pos hc]
    · rw [if_neg hc, if_neg hc]
      unfold removeGrainStep
      dsimp only
      rw [mostFrequent_eq_specMode]
      cases hm : specMode
          (((get_all_neighbours
            (((posList ((g.getD 0 []).length) g.length).filter
              (fun p => decide (getCell g' p.1 p.2 = id))).map (fun p => p.2))
            (((posList ((g.getD 0 []).length) g.length).filter
              (fun p => decide (getCell g' p.1 p.2 = id))).map (fun p => p.1))
            ((g.getD 0 []).length) g.length).map
              (fun n => getCell g' n.2 n.1))) with
      | none => rfl
      | some m => rfl

/-! ### Range and membership facts for neighbourhoods and grain removal -/

theorem mostFrequent_mem {l : List Int} {m : Int}
    (h : mostFrequent l = some m) : m ∈ l := by
  rw [mostFrequent_eq_specMode] at h
  exact List.mem_of_find?_eq_some h

theorem mem_get_neighbours_bounds {col row x_size y_size : Nat}
    {q : Nat × Nat} (h : q ∈ get_neighbours col row x_size y_size) :
    q.1 < x_size ∧ q.2 < y_size := by
  unfold get_neighbours at h
  dsimp only at h
  rcases List.mem_map.mp h with ⟨p, hp, hq⟩
  rcases List.mem_filter.mp hp with ⟨_, hbounds⟩
  rw [decide_eq_true_eq] at hbounds
  rw [← hq]
  obtain ⟨h1, h2, h3, h4⟩ := hbounds
  constructor
  · show p.1.toNat < x_size
    omega
  · show p.2.toNat < y_size
    omega

theorem mem_get_all_neighbours {x_list y_list : List Nat} {xs ys : Nat}
    {q : Nat × Nat} (h : q ∈ get_all_neighbours x_list y_list xs ys) :
    (q.1 < xs ∧ q.2 < ys) ∧ q ∉ x_list.zip y_list := by
  unfold get_all_neighbours at h
  dsimp only at h
  rw [mem_pyDedup] at h
  rcases List.mem_filter.mp h with ⟨hall, hnotmem⟩
  rw [decide_eq_true_eq] at hnotmem
  rcases List.mem_flatten.mp hall with ⟨nl, hnl, hqnl⟩
  rcases List.mem_map.mp hnl with ⟨p, _, hplnl⟩
  rw [← hplnl] at hqnl
  exact ⟨mem_get_neighbours_bounds hqnl, hnotmem⟩

theorem flatten_mem_iff_getCell {xs : Nat} :
    ∀ {gr : Grid}, (∀ row ∈ gr, row.length = xs) → ∀ {v : Int},
      (v ∈ gr.flatten ↔ ∃ r c, r < gr.length ∧ c < xs ∧ getCell gr r c = v) := by
  intro gr
  induction gr with
  | nil =>
    intro _ v
    simp
  | cons row rest ih =>
    intro hrows v
    rw [List.flatten_cons, List.mem_append]
    have hrowlen : row.length = xs := hrows row (List.mem_cons_self _ _)
    have hrest := ih (fun r hr => hrows r (List.mem_cons_of_mem _ hr)) (v := v)
    constructor
    · intro hcase
      cases hcase with
      | inl hrow =>
        rcases List.mem_iff_getElem.mp hrow with ⟨c, hc, hv⟩
        refine ⟨0, c, by simp, hrowlen ▸ hc, ?_⟩
        show ((row :: rest).getD 0 []).getD c VOID_PIXEL_ID = v
        rw [List.getD_cons_zero, getD_eq_getElem_of_lt _ hc]
        exact hv
      | inr hflat =>
        rcases hrest.mp hflat with ⟨r, c, hr, hc, hv⟩
        exact ⟨r + 1, c, by simpa using hr, hc, hv⟩
    · rintro ⟨r, c, hr, hc, hv⟩
      cases r with
      | zero =>
        left
        have : getCell (row :: rest) 0 c = row.getD c VOID_PIXEL_ID := rfl
        rw [this] at hv
        by_cases hcrow : c < row.length
        · rw [getD_eq_getElem_of_lt _ hcrow] at hv
          exact hv ▸ List.getElem_mem hcrow
        · exfalso
          exact hcrow (hrowlen ▸ hc)
      | succ r' =>
        right
        refine hrest.mpr ⟨r', c, by simpa using hr, hc, hv⟩

theorem replace_fold_getCell (m : Int) (coords : List (Nat × Nat))
    (hnd : coords.Nodup) (gr : Grid) (r c : Nat)
    (hin : ∀ p ∈ coords, p.1 < gr.length ∧ p.2 < (gr.getD p.1 []).length) :
    getCell (coords.foldl (fun g2 p => setCell g2 p.1 p.2 m) gr) r c
      = if (r, c) ∈ coords then m else getCell gr r c := by
  have W : ∀ (g2 : Grid) (q : Nat × Nat), q ≠ (r, c) →
      getCell (setCell g2 q.1 q.2 m) r c = getCell g2 r c := by
    intro g2 q hq
    refine getCell_setCell_ne g2 _ ?_
    intro hc2
    exact hq (by cases q; exact hc2.symm)
  by_cases hmem : (r, c) ∈ coords
  · rw [if_pos hmem]
    rcases nodup_split_of_mem hmem hnd with ⟨l1, l2, hsp, _, hp2⟩
    rw [hsp]
    have hW2 : ∀ (g2 : Grid) (q : Nat × Nat), q ≠ ((r, c) : Nat × Nat) →
        getCell ((fun g2 p => setCell g2 p.1 p.2 m) g2 q) (r, c).1 (r, c).2
          = getCell g2 (r, c).1 (r, c).2 := W
    rw [foldlG_getCell_split _ ((r, c) : Nat × Nat) hW2 l1 l2 gr hp2]
    have hshape : sameShape (l1.foldl (fun g2 p => setCell g2 p.1 p.2 m) gr) gr :=
      foldlG_sameShape _ (fun g2 p => sameShape_setCell g2 p.1 p.2 m) l1 gr
    have hbounds := hin (r, c) hmem
    refine getCell_setCell_self _ m ?_ ?_
    · rw [hshape.1]
      exact hbounds.1
    · rw [hshape.2 r]
      exact hbounds.2
  · rw [if_neg hmem]
    exact foldlG_getCell_of_not_mem _ ((r, c) : Nat × Nat) W coords gr hmem

theorem rows_length_of_sameShape {g1 g2 : Grid} {xs : Nat}
    (hs : sameShape g1 g2) (h2 : ∀ row ∈ g2, row.length = xs) :
    ∀ row ∈ g1, row.length = xs := by
  intro row hm
  rcases List.mem_iff_getElem.mp hm with ⟨i, hi, hrow⟩
  rw [← hrow, ← getD_eq_getElem_of_lt [] hi, hs.2 i]
  have hi2 : i < g2.length := hs.1 ▸ hi
  exact h2 _ (getD_mem [] hi2)

theorem removeGrainStep_props (xs ys : Nat) (gr : Grid) (id : Int)
    (hlen : gr.length = ys) (hrows : ∀ row ∈ gr, row.length = xs)
    {out : Grid × Int}
    (hstep : removeGrainStep xs ys gr id = some out) :
    (out.1.length = ys ∧ ∀ row ∈ out.1, row.length = xs) ∧
    (∀ v ∈ out.1.flatten, v ∈ gr.flatten) ∧ id ∉ out.1.flatten := by
  unfold removeGrainStep at hstep
  dsimp only at hstep
  cases hmf : mostFrequent
      ((get_all_neighbours
        (((posList xs ys).filter
          (fun p => decide (getCell gr p.1 p.2 = id))).map (fun p => p.2))
        (((posList xs ys).filter
          (fun p => decide (getCell gr p.1 p.2 = id))).map (fun p => p.1))
        xs ys).map (fun n => getCell gr n.2 n.1)) with
  | none =>
    rw [hmf] at hstep
    cases hstep
  | some m =>
    rw [hmf] at hstep
    injection hstep with hout
    subst hout
    dsimp only
    have hmmem := mostFrequent_mem hmf
    rcases List.mem_map.mp hmmem with ⟨n, hn, hnval⟩
    obtain ⟨⟨hnx, hny⟩, hnnot⟩ := mem_get_all_neighbours hn
    have hm_flat : m ∈ gr.flatten := by
      refine (flatten_mem_iff_getCell hrows).mpr ⟨n.2, n.1, ?_, hnx, hnval⟩
      rw [hlen]
      exact hny
    have hm_ne : m ≠ id := by
      intro hmid
      subst hmid
      refine hnnot ?_
      rw [List.zip_map']
      refine List.mem_map.mpr ⟨(n.2, n.1), ?_, ?_⟩
      · refine List.mem_filter.mpr ⟨mem_posList.mpr ⟨hny, hnx⟩, ?_⟩
        rw [decide_eq_true_eq]
        exact hnval
      · cases n
        rfl
    have hnd : ((posList xs ys).filter
        (fun p => decide (getCell gr p.1 p.2 = id))).Nodup :=
      (nodup_posList xs ys).filter _
    have hbounds : ∀ p : Nat × Nat, p ∈ (posList xs ys).filter
        (fun p => decide (getCell gr p.1 p.2 = id)) →
        p.1 < gr.length ∧ p.2 < (gr.getD p.1 []).length := by
      intro p hp
      have hpl := mem_posList.mp (List.mem_filter.mp hp).1
      constructor
      · rw [hlen]
        exact hpl.1
      · rw [hrows _ (getD_mem [] (by rw [hlen]; exact hpl.1))]
        exact hpl.2
    have hshape : sameShape
        (((posList xs ys).filter
          (fun p => decide (getCell gr p.1 p.2 = id))).foldl
          (fun g2 p => setCell g2 p.1 p.2 m) gr) gr :=
      foldlG_sameShape _
        (fun (g2 : Grid) (p : Nat × Nat) => sameShape_setCell g2 p.1 p.2 m) _ gr
    have hrows' : ∀ row ∈ ((posList xs ys).filter
        (fun p => decide (getCell gr p.1 p.2 = id))).foldl
        (fun g2 p => setCell g2 p.1 p.2 m) gr, row.length = xs :=
      rows_length_of_sameShape hshape hrows
    refine ⟨⟨hshape.1.trans hlen, hrows'⟩, ?_, ?_⟩
    · intro v hv
      rcases (flatten_mem_iff_getCell hrows').mp hv with ⟨r, c, hr, hc, hval⟩
      rw [replace_fold_getCell m _ hnd gr r c hbounds] at hval
      by_cases hmem : ((r, c) : Nat × Nat) ∈ (posList xs ys).filter
          (fun p => decide (getCell gr p.1 p.2 = id))
      · rw [if_pos hmem] at hval
        exact hval ▸ hm_flat
      · rw [if_neg hmem] at hval
        refine (flatten_mem_iff_getCell hrows).mpr ⟨r, c, ?_, hc, hval⟩
        rw [← hshape.1]
        exact hr
    · intro hidmem
      rcases (flatten_mem_iff_getCell hrows').mp hidmem with ⟨r, c, hr, hc, hval⟩
      rw [replace_fold_getCell m _ hnd gr r c hbounds] at hval
      by_cases hmem : ((r, c) : Nat × Nat) ∈ (posList xs ys).filter
          (fun p => decide (getCell gr p.1 p.2 = id))
      · rw [if_pos hmem] at hval
        exact hm_ne hval
      · rw [if_neg hmem] at hval
        refine hmem (List.mem_filter.mpr ⟨?_, ?_⟩)
        · refine mem_posList.mpr ⟨?_, hc⟩
          rw [← hlen, ← hshape.1]
          exact hr
        · rw [decide_eq_true_eq]
          exact hval

theorem foldl_none {α β : Type} (f : Option β → α → Option β)
    (h : ∀ a, f none a = none) : ∀ l : List α, l.foldl f none = none := by
  intro l
  induction l with
  | nil => rfl
  | cons a tl ih =>
    rw [List.foldl_cons, h a]
    exact ih

theorem remove_fold_subset (flattened : List Int) (t : Int) (xs ys : Nat) :
    ∀ (l : List Int) (g0 gfin : Grid),
      g0.length = ys → (∀ row ∈ g0, row.length = xs) →
      l.foldl
        (fun acc id =>
          match acc with
          | none => none
          | some g =>
            if (flattened.count id : Int) ≥ t then some g
            else (removeGrainStep xs ys g id).map (fun r => r.1))
        (some g0) = some gfin →
      (gfin.length = ys ∧ ∀ row ∈ gfin, row.length = xs) ∧
      ∀ v ∈ gfin.flatten, v ∈ g0.flatten := by
  intro l
  induction l with
  | nil =>
    intro g0 gfin h1 h2 hrun
    injection hrun with h
    subst h
    exact ⟨⟨h1, h2⟩, fun v hv => hv⟩
  | cons a tl ih =>
    intro g0 gfin h1 h2 hrun
    rw [List.foldl_cons] at hrun
    dsimp only at hrun
    by_cases hc : (flattened.count a : Int) ≥ t
    · rw [if_pos hc] at hrun
      exact ih g0 gfin h1 h2 hrun
    · rw [if_neg hc] at hrun
      cases hstep : removeGrainStep xs ys g0 a with
      | none =>
        rw [hstep] at hrun
        rw [show Option.map (fun r : Grid × Int => r.1) none = none from rfl,
          foldl_none _ (fun _ => rfl)] at hrun
        cases hrun
      | some out =>
        rw [hstep] at hrun
        have hprops := removeGrainStep_props xs ys g0 a h1 h2 hstep
        have hrec := ih out.1 gfin hprops.1.1 hprops.1.2 hrun
        exact ⟨hrec.1, fun v hv => hprops.2.1 v (hrec.2 v hv)⟩

theorem remove_fold_small_excluded (flattened : List Int) (t : Int)
    (xs ys : Nat) (id : Int) (hcount : (flattened.count id : Int) < t) :
    ∀ (l : List Int) (g0 gfin : Grid),
      g0.length = ys → (∀ row ∈ g0, row.length = xs) →
      id ∈ l →
      l.foldl
        (fun acc id =>
          match acc with
          | none => none
          | some g =>
            if (flattened.count id : Int) ≥ t then some g
            else (removeGrainStep xs ys g id).map (fun r => r.1))
        (some g0) = some gfin →
      id ∉ gfin.flatten := by
  intro l
  induction l with
  | nil => intro g0 gfin _ _ hmem; cases hmem
  | cons a tl ih =>
    intro g0 gfin h1 h2 hmem hrun
    rw [List.foldl_cons] at hrun
    dsimp only at hrun
    by_cases hc : (flattened.count a : Int) ≥ t
    · rw [if_pos hc] at hrun
      have hne : a ≠ id := by
        intro h
        subst h
        omega
      rcases List.mem_cons.mp hmem with h | h
      · exact absurd h.symm hne
      · exact ih g0 gfin h1 h2 h hrun
    · rw [if_neg hc] at hrun
      cases hstep : removeGrainStep xs ys g0 a with
      | none =>
        rw [hstep] at hrun
        rw [show Option.map (fun r : Grid × Int => r.1) none = none from rfl,
          foldl_none _ (fun _ => rfl)] at hrun
        cases hrun
      | some out =>
        rw [hstep] at hrun
        have hprops := removeGrainStep_props xs ys g0 a h1 h2 hstep
        by_cases haid : a = id
        · subst haid
          have hsub := remove_fold_subset flattened t xs ys tl out.1 gfin
            hprops.1.1 hprops.1.2 hrun
          exact fun hidf => hprops.2.2 (hsub.2 a hidf)
        · rcases List.mem_cons.mp hmem with h | h
          · exact absurd h.symm haid
          · exact ih out.1 gfin hprops.1.1 hprops.1.2 h hrun

/-- C8 (confirmed): after `remove_small_grains(grid, threshold)` on a
rectangular grid, no grain id present in the output has a precomputed
pixel count below the threshold unless it was an absorption target of a
smaller removed grain.  (The proof establishes the stronger left
disjunct: an under-threshold grain is fully reassigned at its own
iteration and, being absent from the grid, can never again be chosen as
any later grain's most neighbouring id, so it simply never survives.) -/
theorem small_grain_ids_absent_unless_absorbed (g : Grid) (t : Int)
    (g' : Grid) (id : Int) (hrect : isRect g)
    (hrun : remove_small_grains g t = some g')
    (hmem : id ∈ (get_sorted_grain_id_list g').1) :
    t ≤ (g.flatten.count id : Int) ∨
      ∃ pr ∈ absorptionPairs g t, pr.1 < id ∧ pr.2 = id := by
  by_cases hcount : t ≤ (g.flatten.count id : Int)
  · exact Or.inl hcount
  exfalso
  push_neg at hcount
  obtain ⟨hflat', hneV⟩ := mem_sorted_id_list.mp hmem
  unfold remove_small_grains at hrun
  dsimp only at hrun
  have hsub := remove_fold_subset (get_sorted_grain_id_list g).2 t
    ((g.getD 0 []).length) g.length (get_sorted_grain_id_list g).1 g g'
    rfl hrect hrun
  have hidg : id ∈ g.flatten := hsub.2 id hflat'
  have hidlist : id ∈ (get_sorted_grain_id_list g).1 :=
    mem_sorted_id_list.mpr ⟨hidg, hneV⟩
  have hcount2 : (((get_sorted_grain_id_list g).2.count id : Int)) < t := by
    have he : (get_sorted_grain_id_list g).2 = g.flatten := rfl
    rw [he]
    exact hcount
  exact remove_fold_small_excluded (get_sorted_grain_id_list g).2 t
    ((g.getD 0 []).length) g.length id hcount2 (get_sorted_grain_id_list g).1
    g g' rfl hrect hidlist hrun hflat'

/-- C8 (witness). -/
theorem small_grain_ids_absent_unless_absorbed_witness :
    remove_small_grains [[7, 7], [7, 7]] 1 = some [[7, 7], [7, 7]] ∧
    (7 : Int) ∈ (get_sorted_grain_id_list [[7, 7], [7, 7]]).1 ∧
    (1 ≤ (([[7, 7], [7, 7]] : Grid).flatten.count 7 : Int) ∨
      ∃ pr ∈ absorptionPairs [[7, 7], [7, 7]] 1, pr.1 < 7 ∧ pr.2 = 7) :=
  ⟨by decide, by decide,
    small_grain_ids_absent_unless_absorbed [[7, 7], [7, 7]] 1 [[7, 7], [7, 7]]
      7 (by decide) (by decide) (by decide)⟩

/-! ### The merge map: dict-insertion-order construction equals the
declarative bucket list -/

theorem foldl_if_filter {α β : Type} (f : β → α → β) (p : α → Prop)
    [DecidablePred p] :
    ∀ (l : List α) (b : β),
      l.foldl (fun acc x => if p x then f acc x else acc) b
        = (l.filter (fun x => decide (p x))).foldl f b := by
  intro l
  induction l with
  | nil => intro b; rfl
  | cons a tl ih =>
    intro b
    rw [List.foldl_cons, List.filter_cons]
    by_cases hp : p a
    · rw [if_pos hp, if_pos (by rw [decide_eq_true_eq]; exact hp),
        List.foldl_cons]
      exact ih (f b a)
    · rw [if_neg hp, if_neg (by rw [decide_eq_true_eq]; exact hp)]
      exact ih b

theorem alistAppend_fresh (mm : List (Int × List Int)) (k v : Int)
    (h : ∀ e ∈ mm, e.1 ≠ k) : alistAppend mm k v = mm ++ [(k, [v])] := by
  unfold alistAppend
  rw [if_neg]
  intro hany
  rcases List.any_eq_true.mp hany with ⟨e, he, heq⟩
  exact h e he (by simpa using heq)

theorem alistAppend_last (mm : List (Int × List Int)) (k v : Int)
    (vs : List Int) (h : ∀ e ∈ mm, e.1 ≠ k) :
    alistAppend (mm ++ [(k, vs)]) k v = mm ++ [(k, vs ++ [v])] := by
  unfold alistAppend
  rw [if_pos (List.any_eq_true.mpr ⟨(k, vs), by simp, by simp⟩)]
  rw [List.map_append]
  congr 1
  · have hmapid : List.map
        (fun e : Int × List Int => if e.1 == k then (e.1, e.2 ++ [v]) else e) mm
        = List.map id mm := by
      refine List.map_congr_left ?_
      intro e he
      rw [if_neg (by simpa using h e he)]
      rfl
    rw [hmapid, List.map_id]
  · simp

theorem foldl_alistAppend_acc (k : Int) :
    ∀ (vl : List Int) (mm : List (Int × List Int)) (acc : List Int),
      (∀ e ∈ mm, e.1 ≠ k) →
      vl.foldl (fun m2 v => alistAppend m2 k v) (mm ++ [(k, acc)])
        = mm ++ [(k, acc ++ vl)] := by
  intro vl
  induction vl with
  | nil => intro mm acc _; simp
  | cons v vt ih =>
    intro mm acc hfresh
    rw [List.foldl_cons, alistAppend_last mm k v acc hfresh, ih mm _ hfresh,
      List.append_assoc]
    rfl

theorem foldl_alistAppend_start (k : Int) (vl : List Int)
    (mm : List (Int × List Int)) (hfresh : ∀ e ∈ mm, e.1 ≠ k) :
    vl.foldl (fun m2 v => alistAppend m2 k v) mm
      = if vl = [] then mm else mm ++ [(k, vl)] := by
  cases vl with
  | nil => rfl
  | cons v vt =>
    rw [if_neg (by simp), List.foldl_cons, alistAppend_fresh mm k v hfresh,
      foldl_alistAppend_acc k vt mm [v] hfresh]
    rfl

theorem range_filter_lt (i : Nat) :
    ∀ n : Nat, (List.range n).filter (fun j => decide (i < j))
      = List.range' (i + 1) (n - (i + 1)) := by
  intro n
  induction n with
  | zero => simp
  | succ n ih =>
    rw [List.range_succ, List.filter_append, ih]
    by_cases hn : i < n
    · have hsucc : (n + 1) - (i + 1) = (n - (i + 1)) + 1 := by omega
      have hval : (i + 1) + 1 * (n - (i + 1)) = n := by omega
      rw [hsucc, List.range'_concat, hval]
      congr 1
      simp [hn]
    · have h0 : n - (i + 1) = 0 := by omega
      have h1 : (n + 1) - (i + 1) = 0 := by omega
      rw [h0, h1]
      simp
      omega

theorem js_filter_eq (i n : Nat) (q : Nat → Bool) :
    (List.range n).filter (fun j => decide (i < j) && q j)
      = (List.range' (i + 1) (n - (i + 1))).filter q := by
  have h1 : (List.range n).filter (fun j => decide (i < j) && q j)
      = ((List.range n).filter (fun j => decide (i < j))).filter q := by
    rw [List.filter_filter]
    refine List.filter_congr ?_
    intro a _
    rw [Bool.and_comm]
  rw [h1, range_filter_lt i n]

theorem js_filter_eq' (i n : Nat) (q : Nat → Bool) :
    (List.range' 0 n).filter (fun j => decide (i < j) && q j)
      = (List.range' (i + 1) (n - (i + 1))).filter q := by
  rw [← List.range_eq_range']
  exact js_filter_eq i n q

theorem inner_merge_fold (ids : List Int) (m : Int → Grain) (t : Int)
    (i : Nat) (mm : List (Int × List Int))
    (hfresh : ∀ e ∈ mm, e.1 ≠ ids.getD i 0) :
    (List.range' (i + 1) (ids.length - (i + 1))).foldl
      (fun mm2 j =>
        if orientationError (m (ids.getD i 0)).get_orientation
            (m (ids.getD j 0)).get_orientation < t then
          alistAppend mm2 (ids.getD i 0) (ids.getD j 0)
        else mm2)
      mm
    = (if ((List.range' (i + 1) (ids.length - (i + 1))).filter
          (fun j => decide (orientationError (m (ids.getD i 0)).get_orientation
            (m (ids.getD j 0)).get_orientation < t))).isEmpty then mm
       else mm ++ [(ids.getD i 0,
         ((List.range' (i + 1) (ids.length - (i + 1))).filter
           (fun j => decide (orientationError (m (ids.getD i 0)).get_orientation
             (m (ids.getD j 0)).get_orientation < t))).map
           (fun j => ids.getD j 0))]) := by
  rw [foldl_if_filter
    (fun mm2 j => alistAppend mm2 (ids.getD i 0) (ids.getD j 0))
    (fun j => orientationError (m (ids.getD i 0)).get_orientation
      (m (ids.getD j 0)).get_orientation < t)
    (List.range' (i + 1) (ids.length - (i + 1))) mm,
    ← List.foldl_map (fun j => ids.getD j 0)
      (fun m2 v => alistAppend m2 (ids.getD i 0) v),
    foldl_alistAppend_start (ids.getD i 0) _ mm hfresh]
  by_cases hjs : ((List.range' (i + 1) (ids.length - (i + 1))).filter
      (fun j => decide (orientationError (m (ids.getD i 0)).get_orientation
        (m (ids.getD j 0)).get_orientation < t))) = []
  · rw [if_pos (by rw [List.map_eq_nil_iff]; exact hjs),
      if_pos (List.isEmpty_iff.mpr hjs)]
  · rw [if_neg (by rw [List.map_eq_nil_iff]; exact hjs),
      if_neg (fun hemp => hjs (List.isEmpty_iff.mp hemp))]

theorem buildMergeMap_aux (ids : List Int) (m : Int → Grain) (t : Int)
    (hnd : ids.Nodup) :
    ∀ (k s : Nat), s + k = ids.length →
      ∀ mm : List (Int × List Int),
        (∀ e ∈ mm, ∀ j, s ≤ j → j < ids.length → e.1 ≠ ids.getD j 0) →
        (List.range' s k).foldl
          (fun mm i =>
            (List.range' (i + 1) (ids.length - (i + 1))).foldl
              (fun mm2 j =>
                if orientationError (m (ids.getD i 0)).get_orientation
                    (m (ids.getD j 0)).get_orientation < t then
                  alistAppend mm2 (ids.getD i 0) (ids.getD j 0)
                else mm2)
              mm)
          mm
        = mm ++ (List.range' s k).filterMap
            (fun i =>
              if ((List.range' 0 ids.length).filter
                  (fun j => decide (i < j) &&
                    decide (orientationError (m (ids.getD i 0)).get_orientation
                      (m (ids.getD j 0)).get_orientation < t))).isEmpty then
                none
              else some (ids.getD i 0,
                ((List.range' 0 ids.length).filter
                  (fun j => decide (i < j) &&
                    decide (orientationError (m (ids.getD i 0)).get_orientation
                      (m (ids.getD j 0)).get_orientation < t))).map
                  (fun j => ids.getD j 0))) := by
  intro k
  induction k with
  | zero =>
    intro s _ mm _
    simp
  | succ k ih =>
    intro s hs mm hkeys
    rw [List.range'_succ, List.foldl_cons, List.filterMap_cons]
    have hfresh : ∀ e ∈ mm, e.1 ≠ ids.getD s 0 :=
      fun e he => hkeys e he s (le_refl s) (by omega)
    rw [inner_merge_fold ids m t s mm hfresh]
    have hjseq := js_filter_eq' s ids.length
      (fun j => decide (orientationError (m (ids.getD s 0)).get_orientation
        (m (ids.getD j 0)).get_orientation < t))
    rw [hjseq]
    by_cases hjs : ((List.range' (s + 1) (ids.length - (s + 1))).filter
        (fun j => decide (orientationError (m (ids.getD s 0)).get_orientation
          (m (ids.getD j 0)).get_orientation < t))) = []
    · rw [if_pos (List.isEmpty_iff.mpr hjs),
        if_pos (List.isEmpty_iff.mpr hjs)]
      exact ih (s + 1) (by omega) mm
        (fun e he j hj1 hj2 => hkeys e he j (by omega) hj2)
    · rw [if_neg (fun hemp => hjs (List.isEmpty_iff.mp hemp)),
        if_neg (fun hemp => hjs (List.isEmpty_iff.mp hemp))]
      have hkeys' : ∀ e ∈ mm ++ [(ids.getD s 0,
          ((List.range' (s + 1) (ids.length - (s + 1))).filter
            (fun j => decide (orientationError (m (ids.getD s 0)).get_orientation
              (m (ids.getD j 0)).get_orientation < t))).map
            (fun j => ids.getD j 0))],
          ∀ j, s + 1 ≤ j → j < ids.length → e.1 ≠ ids.getD j 0 := by
        intro e he j hj1 hj2
        rcases List.mem_append.mp he with hmm | hsing
        · exact hkeys e hmm j (by omega) hj2
        · rcases List.mem_singleton.mp hsing with rfl
          show ids.getD s 0 ≠ ids.getD j 0
          have hslt : s < ids.length := by omega
          rw [List.getD_eq_getElem _ _ hslt, List.getD_eq_getElem _ _ hj2]
          intro heq
          have := (hnd.getElem_inj_iff).mp heq
          omega
      rw [ih (s + 1) (by omega) _ hkeys', List.append_assoc]
      rfl

theorem buildMergeMap_eq_specMergeMap (ids : List Int) (m : Int → Grain)
    (t : Int) (hnd : ids.Nodup) :
    buildMergeMap ids m t = specMergeMap ids m t := by
  unfold buildMergeMap specMergeMap
  dsimp only
  rw [List.range_eq_range' ids.length]
  exact buildMergeMap_aux ids m t hnd ids.length 0 (by omega) []
    (fun e he => absurd he (List.not_mem_nil e))

/-! ### Applying the merge buckets cell by cell -/

theorem grid_ext {g1 g2 : Grid} (hlen : g1.length = g2.length)
    (hrows : ∀ i, i < g1.length →
      (g1.getD i []).length = (g2.getD i []).length)
    (hcells : ∀ r c, r < g1.length → c < (g1.getD r []).length →
      getCell g1 r c = getCell g2 r c) : g1 = g2 := by
  refine List.ext_getElem hlen ?_
  intro i h1 h2
  refine List.ext_getElem ?_ ?_
  · have h := hrows i h1
    rw [getD_eq_getElem_of_lt [] h1, getD_eq_getElem_of_lt [] h2] at h
    exact h
  · intro c hc1 hc2
    have h := hcells i c h1 (by rw [getD_eq_getElem_of_lt [] h1]; exact hc1)
    rw [getCell, getCell, getD_eq_getElem_of_lt [] h1,
      getD_eq_getElem_of_lt [] h2, getD_eq_getElem_of_lt _ hc1,
      getD_eq_getElem_of_lt _ hc2] at h
    exact h

theorem getCell_map_map (f : Int → Int) (gr : Grid) (r c : Nat)
    (hr : r < gr.length) (hc : c < (gr.getD r []).length) :
    getCell (gr.map (fun row => row.map f)) r c = f (getCell gr r c) := by
  have hc2 : c < gr[r].length := by
    rw [getD_eq_getElem_of_lt [] hr] at hc
    exact hc
  have h1 : (gr.map (fun row => row.map f)).getD r [] = (gr[r]).map f := by
    rw [getD_eq_getElem_of_lt [] (by rw [List.length_map]; exact hr)]
    exact List.getElem_map _
  rw [getCell, h1, getCell, getD_eq_getElem_of_lt [] hr,
    getD_eq_getElem_of_lt VOID_PIXEL_ID (by rw [List.length_map]; exact hc2),
    getD_eq_getElem_of_lt VOID_PIXEL_ID hc2]
  exact List.getElem_map _

theorem mergeApplyKey_eq_map (xs ys : Nat) (gr : Grid) (e : Int × List Int)
    (hlen : gr.length = ys) (hrows : ∀ row ∈ gr, row.length = xs) :
    mergeApplyKey xs ys gr e
      = gr.map (fun row => row.map (fun v => if v ∈ e.2 then e.1 else v)) := by
  have hstepeq : ∀ (g2 : Grid) (a b : Nat),
      (if getCell g2 a b ∈ e.2 then setCell g2 a b e.1 else g2)
        = setCell g2 a b
            (if getCell g2 a b ∈ e.2 then e.1 else getCell g2 a b) := by
    intro g2 a b
    by_cases hm : getCell g2 a b ∈ e.2
    · rw [if_pos hm, if_pos hm]
    · rw [if_neg hm, if_neg hm, setCell_getCell_self]
  have W : ∀ (g2 : Grid) (q p : Nat × Nat), q ≠ p →
      getCell ((fun gr2 p2 => if getCell gr2 p2.1 p2.2 ∈ e.2 then
        setCell gr2 p2.1 p2.2 e.1 else gr2) g2 q) p.1 p.2
        = getCell g2 p.1 p.2 := by
    intro g2 q p hq
    dsimp only
    split
    · refine getCell_setCell_ne g2 _ ?_
      intro hc2
      exact hq (by cases q; cases p; exact hc2.symm)
    · rfl
  have hshape : ∀ (l : List (Nat × Nat)) (g2 : Grid),
      sameShape (l.foldl (fun gr2 p2 => if getCell gr2 p2.1 p2.2 ∈ e.2 then
        setCell gr2 p2.1 p2.2 e.1 else gr2) g2) g2 := by
    intro l g2
    refine foldlG_sameShape _ ?_ l g2
    intro g3 p
    dsimp only
    split
    · exact sameShape_setCell _ _ _ _
    · exact sameShape_refl _
  unfold mergeApplyKey
  refine grid_ext ?_ ?_ ?_
  · rw [(hshape _ gr).1, List.length_map]
  · intro i hi
    rw [(hshape _ gr).2 i]
    have higr : i < gr.length := by
      rw [← (hshape _ gr).1]
      exact hi
    rw [getD_eq_getElem_of_lt [] higr,
      getD_eq_getElem_of_lt [] (by rw [List.length_map]; exact higr),
      List.getElem_map, List.length_map]
  · intro r c hr hc
    have hrgr : r < gr.length := by
      rw [← (hshape _ gr).1]
      exact hr
    have hcgr : c < (gr.getD r []).length := by
      rw [← (hshape _ gr).2 r]
      exact hc
    rw [getCell_map_map _ gr r c hrgr hcgr]
    have hmem : ((r, c) : Nat × Nat) ∈ posList xs ys := by
      refine mem_posList.mpr ⟨?_, ?_⟩
      · rw [← hlen]
        exact hrgr
      · rw [← hrows _ (getD_mem [] hrgr)]
        exact hcgr
    rcases nodup_split_of_mem hmem (nodup_posList xs ys) with
      ⟨l1, l2, hsp, _, hp2⟩
    rw [hsp, foldlG_getCell_split _ ((r, c) : Nat × Nat)
      (fun g2 q hq => W g2 q (r, c) hq) l1 l2 gr hp2]
    have hbefore : getCell (l1.foldl (fun gr2 p2 =>
        if getCell gr2 p2.1 p2.2 ∈ e.2 then setCell gr2 p2.1 p2.2 e.1
        else gr2) gr) r c = getCell gr r c := by
      have hnm : ((r, c) : Nat × Nat) ∉ l1 := by
        have hnd := nodup_posList xs ys
        rw [hsp, List.nodup_append] at hnd
        exact fun hin => hnd.2.2 hin (List.mem_cons_self _ _)
      exact foldlG_getCell_of_not_mem _ ((r, c) : Nat × Nat)
        (fun g2 q hq => W g2 q (r, c) hq) l1 gr hnm
    dsimp only
    rw [hstepeq _ r c, hbefore]
    refine getCell_setCell_self _ _ ?_ ?_
    · rw [(hshape l1 gr).1]
      exact hrgr
    · rw [(hshape l1 gr).2 r]
      exact hcgr

theorem applyMerges_eq_spec (xs ys : Nat) :
    ∀ (mml : List (Int × List Int)) (gr : Grid),
      gr.length = ys → (∀ row ∈ gr, row.length = xs) →
      mml.foldl (mergeApplyKey xs ys) gr = specApplyMerges gr mml := by
  intro mml
  induction mml with
  | nil => intro gr _ _; rfl
  | cons e rest ih =>
    intro gr hlen hrows
    rw [List.foldl_cons, mergeApplyKey_eq_map xs ys gr e hlen hrows]
    have hlen' : (gr.map (fun row => row.map
        (fun v => if v ∈ e.2 then e.1 else v))).length = ys := by
      rw [List.length_map]
      exact hlen
    have hrows' : ∀ row ∈ gr.map (fun row => row.map
        (fun v => if v ∈ e.2 then e.1 else v)), row.length = xs := by
      intro row hm
      rcases List.mem_map.mp hm with ⟨orig, horig, hrow⟩
      rw [← hrow, List.length_map]
      exact hrows orig horig
    rw [ih _ hlen' hrows']
    rfl

/-- The returned grid of `merge_grains` equals the spec-side merge-bucket
construction applied in creation order (shared helper). -/
theorem merge_grains_fst_eq (g : Grid) (m : Int → Grain) (t : Int)
    (hrect : isRect g) :
    (merge_grains g m t).1
      = specApplyMerges g (specMergeMap (get_sorted_grain_id_list g).1 m t) := by
  unfold merge_grains
  dsimp only
  rw [buildMergeMap_eq_specMergeMap _ _ _ (nodup_sorted_id_list g)]
  exact applyMerges_eq_spec _ _ _ g rfl hrect

/-- C4 (confirmed): `merge_grains` works on a private copy (in this pure
embedding, the result is a function of the input and the input value is
untouched), builds exactly the merge map the claim describes — for every
index pair `i < j` of the ascending id list with orientation distance
strictly below the threshold, `id_list[j]` is appended under `id_list[i]`,
a given id possibly under several representatives — and applies the
buckets by iterating keys in entry-creation order (ascending `id_i`),
setting every cell whose current value (reflecting earlier keys' merges in
the same call) lies in the bucket to the key. -/
theorem merge_grains_matches_spec (g : Grid) (m : Int → Grain) (t : Int)
    (hrect : isRect g) :
    (merge_grains g m t).1
      = specApplyMerges g (specMergeMap (get_sorted_grain_id_list g).1 m t) :=
  merge_grains_fst_eq g m t hrect

/-- C4 (witness). -/
theorem merge_grains_matches_spec_witness :
    (merge_grains [[1, 2], [2, 2]] (fun i => ⟨(i, 0, 0)⟩) 2).1
      = specApplyMerges [[1, 2], [2, 2]]
          (specMergeMap (get_sorted_grain_id_list [[1, 2], [2, 2]]).1
            (fun i => ⟨(i, 0, 0)⟩) 2) :=
  merge_grains_matches_spec [[1, 2], [2, 2]] (fun i => ⟨(i, 0, 0)⟩) 2
    (by decide)

/-! ### The distinct grain count never grows under merging -/

theorem toFinset_map_int (f : Int → Int) (l : List Int) :
    (l.map f).toFinset = l.toFinset.image f := by
  induction l with
  | nil => simp
  | cons a tl ih => simp [ih]

theorem specMergeMap_entry_props (ids : List Int) (m : Int → Grain) (t : Int)
    (hnd : ids.Nodup) (hvoid : VOID_PIXEL_ID ∉ ids) :
    ∀ e ∈ specMergeMap ids m t,
      e.1 ≠ VOID_PIXEL_ID ∧ (∀ v ∈ e.2, v ≠ VOID_PIXEL_ID) ∧ e.1 ∉ e.2 := by
  intro e he
  unfold specMergeMap at he
  dsimp only at he
  rcases List.mem_filterMap.mp he with ⟨i, hirange, hentry⟩
  have hi : i < ids.length := List.mem_range.mp hirange
  split at hentry
  · cases hentry
  · injection hentry with he2
    rw [← he2]
    dsimp only
    refine ⟨?_, ?_, ?_⟩
    · intro hv
      refine hvoid ?_
      rw [← hv, List.getD_eq_getElem _ _ hi]
      exact List.getElem_mem hi
    · intro v hv
      rcases List.mem_map.mp hv with ⟨j, hjmem, hjv⟩
      have hj : j < ids.length :=
        List.mem_range.mp (List.mem_filter.mp hjmem).1
      intro hveq
      refine hvoid ?_
      rw [← hveq, ← hjv, List.getD_eq_getElem _ _ hj]
      exact List.getElem_mem hj
    · intro hin
      rcases List.mem_map.mp hin with ⟨j, hjmem, hjv⟩
      obtain ⟨hjr, hjcond⟩ := List.mem_filter.mp hjmem
      have hj : j < ids.length := List.mem_range.mp hjr
      have hij : i < j := by
        have := (Bool.and_eq_true _ _).mp hjcond
        exact of_decide_eq_true this.1
      have heq : ids.getD i 0 = ids.getD j 0 := hjv.symm
      rw [List.getD_eq_getElem _ _ hi, List.getD_eq_getElem _ _ hj] at heq
      have := (hnd.getElem_inj_iff).mp heq
      omega

theorem relabel_card_le (l : List Int) (k : Int) (vs : List Int)
    (hvs : ∀ v ∈ vs, v ≠ VOID_PIXEL_ID) :
    ((l.map (fun v => if v ∈ vs then k else v)).toFinset.erase
        VOID_PIXEL_ID).card
      ≤ (l.toFinset.erase VOID_PIXEL_ID).card := by
  rw [toFinset_map_int]
  by_cases hex : ∃ v0 ∈ l.toFinset, v0 ∈ vs
  · rcases hex with ⟨v0, hv0S, hv0vs⟩
    have hsub : (l.toFinset.image (fun v => if v ∈ vs then k else v)).erase
        VOID_PIXEL_ID ⊆
        insert k ((l.toFinset.erase VOID_PIXEL_ID).erase v0) := by
      intro w hw
      rw [Finset.mem_erase] at hw
      rcases Finset.mem_image.mp hw.2 with ⟨v, hvS, hfv⟩
      by_cases hv : v ∈ vs
      · rw [if_pos hv] at hfv
        rw [← hfv]
        exact Finset.mem_insert_self _ _
      · rw [if_neg hv] at hfv
        subst hfv
        refine Finset.mem_insert_of_mem ?_
        refine Finset.mem_erase.mpr ⟨?_, Finset.mem_erase.mpr ⟨?_, ?_⟩⟩
        · intro hvv0
          exact hv (hvv0 ▸ hv0vs)
        · exact hw.1
        · exact hvS
    have hv0mem : v0 ∈ l.toFinset.erase VOID_PIXEL_ID :=
      Finset.mem_erase.mpr ⟨hvs v0 hv0vs, hv0S⟩
    have hpos : 1 ≤ (l.toFinset.erase VOID_PIXEL_ID).card :=
      Finset.card_pos.mpr ⟨v0, hv0mem⟩
    calc ((l.toFinset.image (fun v => if v ∈ vs then k else v)).erase
          VOID_PIXEL_ID).card
        ≤ (insert k ((l.toFinset.erase VOID_PIXEL_ID).erase v0)).card :=
          Finset.card_le_card hsub
      _ ≤ ((l.toFinset.erase VOID_PIXEL_ID).erase v0).card + 1 :=
          Finset.card_insert_le _ _
      _ ≤ (l.toFinset.erase VOID_PIXEL_ID).card := by
          rw [Finset.card_erase_of_mem hv0mem]
          omega
  · push_neg at hex
    have himg : l.toFinset.image (fun v => if v ∈ vs then k else v)
        = l.toFinset := by
      have hcongr : l.toFinset.image (fun v => if v ∈ vs then k else v)
          = l.toFinset.image id := by
        refine Finset.image_congr ?_
        intro v hvS
        show (if v ∈ vs then k else v) = id v
        rw [if_neg (hex v (Finset.mem_coe.mp hvS))]
        rfl
      rw [hcongr, Finset.image_id]
    rw [himg]

theorem specApplyMerges_card_le :
    ∀ (mml : List (Int × List Int)) (gr : Grid),
      (∀ e ∈ mml, ∀ v ∈ e.2, v ≠ VOID_PIXEL_ID) →
      ((specApplyMerges gr mml).flatten.toFinset.erase VOID_PIXEL_ID).card
        ≤ (gr.flatten.toFinset.erase VOID_PIXEL_ID).card := by
  intro mml
  induction mml with
  | nil => intro gr _; exact le_refl _
  | cons e rest ih =>
    intro gr hprops
    have hstep : specApplyMerges gr (e :: rest)
        = specApplyMerges
            (gr.map (fun row => row.map (fun v => if v ∈ e.2 then e.1 else v)))
            rest := rfl
    rw [hstep]
    have hflat : (gr.map (fun row => row.map
        (fun v => if v ∈ e.2 then e.1 else v))).flatten
        = gr.flatten.map (fun v => if v ∈ e.2 then e.1 else v) :=
      (List.map_flatten _ _).symm
    calc ((specApplyMerges (gr.map (fun row => row.map
            (fun v => if v ∈ e.2 then e.1 else v))) rest).flatten.toFinset.erase
            VOID_PIXEL_ID).card
        ≤ ((gr.map (fun row => row.map
            (fun v => if v ∈ e.2 then e.1 else v))).flatten.toFinset.erase
            VOID_PIXEL_ID).card :=
          ih _ (fun e2 he2 => hprops e2 (List.mem_cons_of_mem _ he2))
      _ ≤ (gr.flatten.toFinset.erase VOID_PIXEL_ID).card := by
          rw [hflat]
          exact relabel_card_le gr.flatten e.1 e.2
            (hprops e (List.mem_cons_self _ _))

/-- C9 (confirmed): for every rectangular input grid and grain map, the
number of distinct grain ids of the grid returned by `merge_grains` is at
most that of the input grid — each merge bucket only relabels cells to
its key, removing at least as many distinct ids as it can introduce. -/
theorem merge_grains_distinct_count_monotone (g : Grid) (m : Int → Grain)
    (t : Int) (hrect : isRect g) :
    distinctGrainCount (merge_grains g m t).1 ≤ distinctGrainCount g := by
  rw [distinctGrainCount_eq_card, distinctGrainCount_eq_card,
    merge_grains_fst_eq g m t hrect]
  refine specApplyMerges_card_le _ g ?_
  intro e he
  have hprops := specMergeMap_entry_props (get_sorted_grain_id_list g).1 m t
    (nodup_sorted_id_list g)
    (fun hmem => (mem_sorted_id_list.mp hmem).2 rfl) e he
  exact hprops.2.1

/-- C9 (witness). -/
theorem merge_grains_distinct_count_monotone_witness :
    distinctGrainCount
        (merge_grains [[1, 2]] (fun _ => ⟨(0, 0, 0)⟩) 10).1
      ≤ distinctGrainCount [[1, 2]] :=
  merge_grains_distinct_count_monotone [[1, 2]] (fun _ => ⟨(0, 0, 0)⟩) 10
    (by decide)

/-- C5 (counterexample): the before/after distinct-grain-count summary is
NOT part of `merge_grains`' return value — the returned grid is just the
merged grid, and the summary appears only as printed output (modelled as
the stdout-lines component), refuting the claim that the summary is
produced "as part of its return value, not as a printed side effect". -/
theorem merge_summary_is_printed_not_returned :
    (merge_grains [[5, 6]] (fun i => ⟨(i, 0, 0)⟩) 1).1 = [[5, 6]] ∧
    (merge_grains [[5, 6]] (fun i => ⟨(i, 0, 0)⟩) 1).2
      = ["=========================",
         "Merged from 2 grains to 2 grains",
         "========================="] := by
  refine ⟨by decide, by rfl⟩

/-- C5 (amended): `merge_grains` prints the before/after
distinct-grain-count summary (three stdout lines reporting the distinct
non-void id counts of the input and output grids) and returns only the
merged grid. -/
theorem merge_grains_prints_summary (g : Grid) (m : Int → Grain) (t : Int) :
    (merge_grains g m t).2
      = ["=========================",
         "Merged from "
           ++ toString (g.flatten.toFinset.erase VOID_PIXEL_ID).card
           ++ " grains to "
           ++ toString
             ((merge_grains g m t).1.flatten.toFinset.erase
               VOID_PIXEL_ID).card
           ++ " grains",
         "========================="] := by
  rw [show (g.flatten.toFinset.erase VOID_PIXEL_ID).card
        = distinctGrainCount g from (distinctGrainCount_eq_card g).symm,
    show ((merge_grains g m t).1.flatten.toFinset.erase VOID_PIXEL_ID).card
        = distinctGrainCount (merge_grains g m t).1 from
      (distinctGrainCount_eq_card _).symm]
  rfl
